import Mathlib

/-!
# Verification of the Spatial Audio Conferencing Platform core

Shallow embedding of the repository's core logic:

* `SpatialAudioManager` (client): the spatial-audio source map, the
  per-source gain law, the spatial-mode toggle and the 2D canvas / 3D
  world coordinate transforms.
* the socket.io server (room registry, signaling relay, presence sync):
  an explicit state-transition system over association lists, driven by
  the events the server handles (`connection`, `join-room`, `offer`,
  `answer`, `ice-candidate`, `position-update`, `toggle-mute`,
  `disconnect`).

Numbers that are floating point in the source are modelled as exact
rationals; identifiers (socket ids, room ids, user ids, user names,
signaling payloads) are modelled as naturals.
-/

/-- A 3D position, as exchanged in `position-update` messages and stored
per audio source and per participant. -/
structure V3 where
  x : ℚ
  y : ℚ
  z : ℚ
  deriving DecidableEq, Repr

/-- The origin `{x: 0, y: 0, z: 0}`. -/
def origin : V3 := ⟨0, 0, 0⟩

/-! ## The gain law (SpatialAudioManager.updateAudioSourcePosition)

The source computes, for a source at distance
`distance = Math.sqrt(x*x + y*y + z*z)` from the listener:

  `volumeMultiplier = Math.max(0.1, Math.min(1, 1 / (1 + distance * 0.1)))`
  `gainNode.gain.value = 0.5 * volumeMultiplier`

We model the resulting gain as a function of the (nonnegative) distance. -/

/-- Per-source gain as a function of the distance to the listener,
exactly as computed in `updateAudioSourcePosition`. -/
def gainFor (distance : ℚ) : ℚ :=
  (1/2) * max (1/10) (min 1 (1 / (1 + distance * (1/10))))

/-! ## Canvas/world coordinate transforms (SpatialAudioManager) -/

/-- `canvasToWorldPosition`: normalize canvas coordinates to `[-1, 1]`,
map horizontal to world `x`, vertical to world `z`, hold `y = 0`, and
scale by the world-radius constant 10. -/
def canvasToWorldPosition (canvasX canvasY canvasWidth canvasHeight : ℚ) : V3 :=
  ⟨((canvasX / canvasWidth) * 2 - 1) * 10,
   0,
   ((canvasY / canvasHeight) * 2 - 1) * 10⟩

/-- `worldToCanvasPosition`: scale down from world units by 10 and map
back from `[-1, 1]` to canvas coordinates. -/
def worldToCanvasPosition (worldX worldY worldZ canvasWidth canvasHeight : ℚ) : ℚ × ℚ :=
  ((worldX / 10 + 1) * canvasWidth / 2, (worldZ / 10 + 1) * canvasHeight / 2)

/-! ## The SpatialAudioManager state

Each entry of `audioSources` stores the position programmed into the
panner node (`panner.positionX/Y/Z`, resp. `panner.setPosition`) and the
`position` field of the stored source record.  The gain node's value is
`gainFor` of the distance `√(x²+y²+z²)` of `pannerPos`; since the claims
under verification only concern positions and the key set, the gain node
value is not duplicated in the record.  The audio-node objects themselves
(source, panner, gain nodes) carry no further state relevant here. -/

/-- Data stored per peer in `this.audioSources`. -/
structure SourceData where
  pannerPos : V3
  position : V3
  deriving DecidableEq, Repr

/-- The mutable state of a `SpatialAudioManager`: the `audioSources` map
(insertion-ordered, keyed by peer id), the `isEnabled` flag and the
`initialized` flag (field named `inited` here). -/
structure SpatialAudioManager where
  audioSources : List (Nat × SourceData)
  isEnabled : Bool
  inited : Bool
  deriving DecidableEq, Repr

/-! ### Association-list primitives

JavaScript `Map` preserves insertion order; `Map.set` overwrites in
place, `Map.delete` removes the entry.  We model maps as insertion-ordered
association lists. -/

/-- Lookup in an association list (first matching key). -/
def alook {κ α : Type} [DecidableEq κ] (k : κ) : List (κ × α) → Option α
  | [] => none
  | (k', v) :: t => if k' = k then some v else alook k t

/-- `Map.set`: overwrite in place if the key is present, else append. -/
def aset {κ α : Type} [DecidableEq κ] (k : κ) (v : α) : List (κ × α) → List (κ × α)
  | [] => [(k, v)]
  | (k', v') :: t => if k' = k then (k, v) :: t else (k', v') :: aset k v t

/-- `Map.delete`: remove the (first) entry with the given key. -/
def adel {κ α : Type} [DecidableEq κ] (k : κ) : List (κ × α) → List (κ × α)
  | [] => []
  | (k', v') :: t => if k' = k then t else (k', v') :: adel k t

/-- In-place update of the value stored at a key (mutation of the record
object held in a JS `Map`). -/
def aupd {κ α : Type} [DecidableEq κ] (k : κ) (f : α → α) : List (κ × α) → List (κ × α)
  | [] => []
  | (k', v) :: t => if k' = k then (k', f v) :: t else (k', v) :: aupd k f t

/-- The keys of an association list, in insertion order. -/
def akeys {κ α : Type} (l : List (κ × α)) : List κ := l.map (·.1)

/-! ### SpatialAudioManager operations -/

/-- `updateAudioSourcePosition(peerId, position)`: only acts when the
source exists and `this.isEnabled`; then programs the panner position,
stores `position` on the record and recomputes the gain (the gain being
`gainFor` of the new distance). -/
def updateAudioSourcePosition (m : SpatialAudioManager) (peerId : Nat) (p : V3) :
    SpatialAudioManager :=
  if (alook peerId m.audioSources).isSome ∧ m.isEnabled then
    { m with
        audioSources := aupd peerId (fun _ => { pannerPos := p, position := p })
                          m.audioSources }
  else m

/-- `addAudioSource(peerId, audioElement)`: refuses (returning `false`,
with the map untouched) unless `this.initialized && this.isEnabled`;
otherwise builds the node graph and stores a record at position
`{x: 0, y: 0, z: 0}`, returning `true`.  (The `catch` branch for a
throwing `createMediaElementSource` is environmental and not modelled.) -/
def addAudioSource (m : SpatialAudioManager) (peerId : Nat) :
    Bool × SpatialAudioManager :=
  if m.inited = false ∨ m.isEnabled = false then (false, m)
  else (true, { m with
                  audioSources := aset peerId
                    { pannerPos := origin, position := origin } m.audioSources })

/-- `toggleSpatialAudio()`: flips `isEnabled` first, then iterates over
the sources calling `updateAudioSourcePosition` — with the origin when
just disabled, with the record's stored `position` when just enabled. -/
def toggleSpatialAudio (m : SpatialAudioManager) : SpatialAudioManager :=
  let m1 : SpatialAudioManager := { m with isEnabled := !m.isEnabled }
  if m1.isEnabled = false then
    m1.audioSources.foldl
      (fun acc kv => updateAudioSourcePosition acc kv.1 origin) m1
  else
    m1.audioSources.foldl
      (fun acc kv => updateAudioSourcePosition acc kv.1
        (match alook kv.1 acc.audioSources with
         | some sd => sd.position
         | none => origin)) m1

/-! ## The server (src server file, socket.io handlers)

State:

* `rooms` — the `rooms` Map: room id → (socket id → participant record);
* `sioRooms` — the socket.io adapter's room table.  socket.io keys its
  rooms by strings: every connected socket is automatically a member of a
  room named by its own socket id, and `socket.join(roomId)` adds it to
  the room named `roomId`.  Socket ids are long random strings, so the
  two families never collide; we model the name space as a sum type.
* `sockets` — the connected sockets with the fields the handlers set on
  the socket object (`socket.roomId`, `socket.userId`, `socket.username`).
-/

/-- A socket.io room name: either a user-chosen room id or the automatic
per-socket room named by a socket id. -/
inductive SioKey : Type
  | room (r : Nat)
  | sock (s : Nat)
  deriving DecidableEq, Repr

/-- Participant record stored in `rooms.get(roomId)`. -/
structure UserData where
  userId : Nat
  username : Nat
  position : V3
  muted : Bool
  deriving DecidableEq, Repr

/-- The fields the handlers set on a connected socket object. -/
structure SockInfo where
  roomId : Option Nat
  userId : Nat
  username : Nat
  deriving DecidableEq, Repr

/-- Full server state. -/
structure ServerState where
  rooms : List (Nat × List (Nat × UserData))
  sioRooms : List (SioKey × List Nat)
  sockets : List (Nat × SockInfo)
  deriving DecidableEq, Repr

/-- The state before any connection: empty maps. -/
def ServerState.start : ServerState := ⟨[], [], []⟩

/-- The payload element of an `existing-users` message. -/
structure ExUser where
  socketId : Nat
  userId : Nat
  username : Nat
  position : V3
  muted : Bool
  deriving DecidableEq, Repr

/-- Messages the server emits to clients. -/
inductive Msg : Type
  | userJoined (socketId userId username : Nat) (position : V3)
  | existingUsers (users : List ExUser)
  | offerMsg (offer : Nat) (caller : Nat)
  | answerMsg (answer : Nat) (answerer : Nat)
  | iceCandidateMsg (candidate : Nat) (sender : Nat)
  | userPositionUpdate (socketId : Nat) (position : V3)
  | userMuteUpdate (socketId : Nat) (muted : Bool)
  | userLeft (socketId userId username : Nat)
  deriving DecidableEq, Repr

/-- Inbound events the server reacts to. -/
inductive Event : Type
  | connect (sid : Nat)
  | joinRoom (sid roomId userId username : Nat)
  | offer (sid target payload : Nat)
  | answer (sid target payload : Nat)
  | iceCandidate (sid target payload : Nat)
  | positionUpdate (sid : Nat) (position : V3)
  | toggleMute (sid : Nat) (muted : Bool)
  | disconnect (sid : Nat)
  deriving DecidableEq, Repr

/-! ### State queries -/

/-- Whether a socket id names a currently connected socket. -/
def livesB (st : ServerState) (s : Nat) : Bool := (alook s st.sockets).isSome

/-- The value of `socket.roomId` for a connected socket (`none` when the
field was never set or the socket is gone). -/
def sockRoom (st : ServerState) (s : Nat) : Option Nat :=
  (alook s st.sockets).bind (fun i => i.roomId)

/-- The member list of a registry room (empty when the room is absent). -/
def regMembers (st : ServerState) (r : Nat) : List (Nat × UserData) :=
  (alook r st.rooms).getD []

/-- The socket ids of a registry room's members, in insertion order. -/
def regMembersKeys (st : ServerState) (r : Nat) : List Nat :=
  akeys (regMembers st r)

/-- Whether socket `s` is recorded as a participant of room `r`. -/
def regMemB (st : ServerState) (r s : Nat) : Bool :=
  (alook s (regMembers st r)).isSome

/-- The member list of a socket.io room (empty when absent). -/
def sioMembers (st : ServerState) (k : SioKey) : List Nat :=
  (alook k st.sioRooms).getD []

/-- `socket.userId` of a connected socket (0 when unset/gone). -/
def uidOf (st : ServerState) (s : Nat) : Nat :=
  ((alook s st.sockets).map (fun i => i.userId)).getD 0

/-- `socket.username` of a connected socket (0 when unset/gone). -/
def unameOf (st : ServerState) (s : Nat) : Nat :=
  ((alook s st.sockets).map (fun i => i.username)).getD 0

/-! ### socket.io primitives -/

/-- `socket.join(k)`: add the socket to the adapter room `k` (creating
it if needed; idempotent when already a member). -/
def sioAdd (k : SioKey) (s : Nat) (l : List (SioKey × List Nat)) :
    List (SioKey × List Nat) :=
  match alook k l with
  | some _ => aupd k (fun ms => if s ∈ ms then ms else ms ++ [s]) l
  | none => aset k [s] l

/-- Upon disconnection the adapter removes the socket from every room. -/
def sioEraseAll (s : Nat) (l : List (SioKey × List Nat)) :
    List (SioKey × List Nat) :=
  l.map (fun kv => (kv.1, kv.2.filter (fun x => x != s)))

/-- `socket.to(k).emit(msg)`: deliver `msg` to every member of adapter
room `k` except the sending socket. -/
def emitExcept (ms : List Nat) (sender : Nat) (msg : Msg) : List (Nat × Msg) :=
  (ms.filter (fun x => x != sender)).map (fun x => (x, msg))

/-! ### The handlers -/

/-- `io.on('connection')`: the socket becomes live; the adapter places it
in its own per-socket room. -/
def connectState (st : ServerState) (sid : Nat) : ServerState :=
  { rooms := st.rooms,
    sioRooms := aset (SioKey.sock sid) [sid] st.sioRooms,
    sockets := aset sid ⟨none, 0, 0⟩ st.sockets }

/-- The `join-room` handler's state effect: `socket.join(roomId)`, set
the socket fields, create the registry room if absent, and store the
joiner's record (position origin, unmuted). -/
def joinState (st : ServerState) (sid roomId userId username : Nat) : ServerState :=
  { rooms := aupd roomId (fun mem => aset sid ⟨userId, username, origin, false⟩ mem)
      (if (alook roomId st.rooms).isSome then st.rooms else aset roomId [] st.rooms),
    sioRooms := sioAdd (SioKey.room roomId) sid st.sioRooms,
    sockets := aupd sid (fun _ => ⟨some roomId, userId, username⟩) st.sockets }

/-- The `join-room` handler's emissions: `user-joined` to the other
members of the (adapter) room, then `existing-users` to the joiner. -/
def joinOut (st : ServerState) (sid roomId userId username : Nat) : List (Nat × Msg) :=
  let st1 := joinState st sid roomId userId username
  emitExcept (sioMembers st1 (SioKey.room roomId)) sid
      (Msg.userJoined sid userId username origin)
    ++ [(sid, Msg.existingUsers ((regMembers st1 roomId).filterMap
          (fun q => if q.1 = sid then none
                    else some ⟨q.1, q.2.userId, q.2.username, q.2.position, q.2.muted⟩)))]

/-- The `position-update` handler's state effect: store the new position
iff the socket's recorded room exists and contains it. -/
def posState (st : ServerState) (sid : Nat) (p : V3) : ServerState :=
  match sockRoom st sid with
  | some r =>
    match alook r st.rooms with
    | some mem =>
      if (alook sid mem).isSome then
        { st with rooms := aupd r (fun m => aupd sid (fun u => { u with position := p }) m)
                             st.rooms }
      else st
    | none => st
  | none => st

/-- The `position-update` handler's emissions: `user-position-update` to
the other members of the socket's room, in the same guarded cases. -/
def posOut (st : ServerState) (sid : Nat) (p : V3) : List (Nat × Msg) :=
  match sockRoom st sid with
  | some r =>
    match alook r st.rooms with
    | some mem =>
      if (alook sid mem).isSome then
        emitExcept (sioMembers st (SioKey.room r)) sid (Msg.userPositionUpdate sid p)
      else []
    | none => []
  | none => []

/-- The `toggle-mute` handler's state effect. -/
def muteState (st : ServerState) (sid : Nat) (b : Bool) : ServerState :=
  match sockRoom st sid with
  | some r =>
    match alook r st.rooms with
    | some mem =>
      if (alook sid mem).isSome then
        { st with rooms := aupd r (fun m => aupd sid (fun u => { u with muted := b }) m)
                             st.rooms }
      else st
    | none => st
  | none => st

/-- The `toggle-mute` handler's emissions. -/
def muteOut (st : ServerState) (sid : Nat) (b : Bool) : List (Nat × Msg) :=
  match sockRoom st sid with
  | some r =>
    match alook r st.rooms with
    | some mem =>
      if (alook sid mem).isSome then
        emitExcept (sioMembers st (SioKey.room r)) sid (Msg.userMuteUpdate sid b)
      else []
    | none => []
  | none => []

/-- The `disconnect` handler's state effect: the adapter has already
removed the socket from every room; then, if the socket had joined an
existing room, it is deleted from the registry room, and the room itself
is deleted when that leaves it empty.  The socket object disappears. -/
def discState (st : ServerState) (sid : Nat) : ServerState :=
  let sio1 := sioEraseAll sid st.sioRooms
  let socks1 := adel sid st.sockets
  match sockRoom st sid with
  | some r =>
    match alook r st.rooms with
    | some mem =>
      if adel sid mem = [] then ⟨adel r st.rooms, sio1, socks1⟩
      else ⟨aupd r (fun _ => adel sid mem) st.rooms, sio1, socks1⟩
    | none => ⟨st.rooms, sio1, socks1⟩
  | none => ⟨st.rooms, sio1, socks1⟩

/-- The `disconnect` handler's emissions: `user-left` to the remaining
members of the room (none when the room was deleted as empty). -/
def discOut (st : ServerState) (sid : Nat) : List (Nat × Msg) :=
  match sockRoom st sid with
  | some r =>
    match alook r st.rooms with
    | some mem =>
      if adel sid mem = [] then []
      else emitExcept (sioMembers (discState st sid) (SioKey.room r)) sid
             (Msg.userLeft sid (uidOf st sid) (unameOf st sid))
    | none => []
  | none => []

/-- One server step: the handler for the event, returning the new state
and the emitted `(recipient, message)` list.  The three signaling
handlers forward to `socket.to(data.target)` — the adapter room named by
the target socket id — leaving the state unchanged. -/
def step (st : ServerState) : Event → ServerState × List (Nat × Msg)
  | Event.connect sid => (connectState st sid, [])
  | Event.joinRoom sid r u n => (joinState st sid r u n, joinOut st sid r u n)
  | Event.offer sid target payload =>
      (st, emitExcept (sioMembers st (SioKey.sock target)) sid (Msg.offerMsg payload sid))
  | Event.answer sid target payload =>
      (st, emitExcept (sioMembers st (SioKey.sock target)) sid (Msg.answerMsg payload sid))
  | Event.iceCandidate sid target payload =>
      (st, emitExcept (sioMembers st (SioKey.sock target)) sid
             (Msg.iceCandidateMsg payload sid))
  | Event.positionUpdate sid p => (posState st sid p, posOut st sid p)
  | Event.toggleMute sid b => (muteState st sid b, muteOut st sid b)
  | Event.disconnect sid => (discState st sid, discOut st sid)

/-- Run a list of events, keeping only the final state. -/
def runS (st : ServerState) : List Event → ServerState
  | [] => st
  | e :: t => runS (step st e).1 t

/-- Run a list of events, collecting all emissions in order. -/
def runOut (st : ServerState) : List Event → ServerState × List (Nat × Msg)
  | [] => (st, [])
  | e :: t =>
    let p := step st e
    let q := runOut p.1 t
    (q.1, p.2 ++ q.2)

/-! ### Event validity

The transport guarantees: a `connect` carries a fresh socket id (socket.io
never reuses ids), and every other event comes from a currently connected
socket. -/

/-- Transport-level validity of one event in a state. -/
def validBasic (st : ServerState) : Event → Bool
  | Event.connect s => !livesB st s
  | Event.joinRoom s _ _ _ => livesB st s
  | Event.offer s _ _ => livesB st s
  | Event.answer s _ _ => livesB st s
  | Event.iceCandidate s _ _ => livesB st s
  | Event.positionUpdate s _ => livesB st s
  | Event.toggleMute s _ => livesB st s
  | Event.disconnect s => livesB st s

/-- Validity restricted further: a `join-room` only from a socket that is
not already in a room (clients join exactly once per connection). -/
def validStrict (st : ServerState) (e : Event) : Bool :=
  validBasic st e &&
    match e with
    | Event.joinRoom s _ _ _ => sockRoom st s == none
    | _ => true

/-- A whole event sequence is valid step by step from a state. -/
def ValidSeqFrom (valid : ServerState → Event → Bool) :
    ServerState → List Event → Prop
  | _, [] => True
  | st, e :: t => valid st e = true ∧ ValidSeqFrom valid (step st e).1 t

instance (valid : ServerState → Event → Bool) (st : ServerState) (l : List Event) :
    Decidable (ValidSeqFrom valid st l) := by
  induction l generalizing st with
  | nil => exact isTrue trivial
  | cons e t ih => exact @instDecidableAnd _ _ _ (ih (step st e).1)

/-! ### The server-state invariant

All of these hold in every state the server reaches when each client
joins at most one room per connection (claim C4's amended hypothesis):
duplicate-free maps, nonempty rooms, agreement between a socket's
`roomId` field and the registry, and agreement between the socket.io
adapter rooms and the registry. -/

/-- A socket's `roomId` field, when set, points to a registry room that
contains the socket. -/
def roomIdOkB (st : ServerState) (o : Option Nat) (s : Nat) : Bool :=
  o.all (fun r => regMemB st r s)

/-- An adapter-room entry agrees with the registry: a user-named room
holds exactly the registry room's member ids, a per-socket room holds
exactly its (live) socket. -/
def sioEntryOkB (st : ServerState) (k : SioKey) (ms : List Nat) : Bool :=
  match k with
  | SioKey.room r => ms == regMembersKeys st r
  | SioKey.sock t => ms == (if livesB st t then [t] else [])

/-- The server-state invariant (conjunction; see the section comment). -/
def SrvInv (st : ServerState) : Prop :=
  (akeys st.sockets).Nodup ∧
  (akeys st.rooms).Nodup ∧
  (akeys st.sioRooms).Nodup ∧
  (∀ p ∈ st.rooms, (akeys p.2).Nodup) ∧
  (∀ p ∈ st.rooms, p.2 ≠ []) ∧
  (∀ p ∈ st.rooms, ∀ q ∈ p.2, sockRoom st q.1 = some p.1) ∧
  (∀ p ∈ st.sockets, roomIdOkB st p.2.roomId p.1 = true) ∧
  (∀ p ∈ st.sockets, alook (SioKey.sock p.1) st.sioRooms = some [p.1]) ∧
  (∀ p ∈ st.sioRooms, sioEntryOkB st p.1 p.2 = true) ∧
  (∀ p ∈ st.rooms, alook (SioKey.room p.1) st.sioRooms = some (akeys p.2))

/-! ### Spec-side definitions (from the claims' wording) -/

/-- One step of the claim-C3 reference bookkeeping: a join to room `R`
adds the connection to the set, a disconnect removes it. -/
def specJoinStep (R : Nat) (acc : List Nat) : Event → List Nat
  | Event.joinRoom s r _ _ =>
      if r = R then (if s ∈ acc then acc else acc ++ [s]) else acc
  | Event.disconnect s => acc.filter (fun x => x != s)
  | _ => acc

/-- Claim C3's reference set: the connections that have joined room `R`
and have not disconnected since. -/
def specJoined (R : Nat) (evs : List Event) : List Nat :=
  evs.foldl (specJoinStep R) []

/-- Whether an event is one of the join-room/disconnect events "on room
`R`" (connections appearing is part of any run). -/
def onRoomB (R : Nat) : Event → Bool
  | Event.connect _ => true
  | Event.joinRoom _ r _ _ => r == R
  | Event.disconnect _ => true
  | _ => false

/-- Whether an event is a signaling forward. -/
def isSignal : Event → Bool
  | Event.offer _ _ _ => true
  | Event.answer _ _ _ => true
  | Event.iceCandidate _ _ _ => true
  | _ => false

/-- Claim C8's reference delivery (amended): a forward is delivered to
its target, exactly once, with the original payload and the sender's
identity — when the target is live and distinct from the sender;
otherwise it is dropped. -/
def sigDeliver (st : ServerState) : Event → Option (Nat × Msg)
  | Event.offer s t p =>
      if livesB st t ∧ t ≠ s then some (t, Msg.offerMsg p s) else none
  | Event.answer s t p =>
      if livesB st t ∧ t ≠ s then some (t, Msg.answerMsg p s) else none
  | Event.iceCandidate s t p =>
      if livesB st t ∧ t ≠ s then some (t, Msg.iceCandidateMsg p s) else none
  | _ => none

/-! ### Concrete fixtures for witnesses and counterexamples -/

/-- One live socket (id 0), no rooms. -/
def stOne : ServerState := connectState ServerState.start 0

/-- Two live sockets 0 and 1, both in room 5. -/
def stTwo : ServerState :=
  runS ServerState.start
    [Event.connect 0, Event.connect 1,
     Event.joinRoom 0 5 10 20, Event.joinRoom 1 5 11 21]

/-- A valid sequence in which socket 0 joins room 1 and then, without
disconnecting, joins room 2. -/
def evsDoubleJoin : List Event :=
  [Event.connect 0, Event.joinRoom 0 1 3 3, Event.joinRoom 0 2 4 4]

/-- A strictly valid sequence: two sockets join room 5. -/
def evsTwoJoin : List Event :=
  [Event.connect 0, Event.joinRoom 0 5 10 20,
   Event.connect 1, Event.joinRoom 1 5 11 21]

/-- A join/disconnect sequence on room 5: sockets 0 and 1 join, then 0
disconnects. -/
def evsJoinLeave : List Event :=
  [Event.connect 0, Event.joinRoom 0 5 1 1,
   Event.connect 1, Event.joinRoom 1 5 2 2,
   Event.disconnect 0]

/-- One live socket 0, sole member of room 5. -/
def stOneRoom : ServerState :=
  runS ServerState.start [Event.connect 0, Event.joinRoom 0 5 1 1]

/-- An enabled, initialized manager with one source for peer 7 placed at
`(3, 0, 4)`. -/
def mgrOne : SpatialAudioManager :=
  { audioSources := [(7, { pannerPos := ⟨3, 0, 4⟩, position := ⟨3, 0, 4⟩ })],
    isEnabled := true,
    inited := true }

/-- A disabled manager with no sources. -/
def mgrOff : SpatialAudioManager :=
  { audioSources := [], isEnabled := false, inited := true }

instance (st : ServerState) : Decidable (SrvInv st) := by
  unfold SrvInv
  exact inferInstance

/-! ## Association-list lemmas -/

theorem akeys_nil {κ α : Type} : akeys ([] : List (κ × α)) = [] := rfl

theorem akeys_cons {κ α : Type} (hd : κ × α) (t : List (κ × α)) :
    akeys (hd :: t) = hd.1 :: akeys t := rfl

theorem alook_aset_self {κ α : Type} [DecidableEq κ] (k : κ) (v : α)
    (l : List (κ × α)) : alook k (aset k v l) = some v := by
  induction l with
  | nil => simp [aset, alook]
  | cons h t ih =>
    by_cases hk : h.1 = k <;> simp [aset, alook, hk, ih]

theorem alook_aset_ne {κ α : Type} [DecidableEq κ] {k k' : κ} (v : α)
    (l : List (κ × α)) (h : k' ≠ k) : alook k' (aset k v l) = alook k' l := by
  have h' : ¬ (k = k') := fun hh => h hh.symm
  induction l with
  | nil => simp [aset, alook, h']
  | cons hd t ih =>
    by_cases hk : hd.1 = k
    · simp [aset, alook, hk, h']
    · simp [aset, alook, hk, ih]

theorem alook_aupd_self {κ α : Type} [DecidableEq κ] (k : κ) (f : α → α)
    (l : List (κ × α)) : alook k (aupd k f l) = (alook k l).map f := by
  induction l with
  | nil => simp [aupd, alook]
  | cons h t ih =>
    by_cases hk : h.1 = k <;> simp [aupd, alook, hk, ih]

theorem alook_aupd_ne {κ α : Type} [DecidableEq κ] {k k' : κ} (f : α → α)
    (l : List (κ × α)) (h : k' ≠ k) : alook k' (aupd k f l) = alook k' l := by
  have h' : ¬ (k = k') := fun hh => h hh.symm
  induction l with
  | nil => simp [aupd, alook]
  | cons hd t ih =>
    by_cases hk : hd.1 = k
    · simp [aupd, alook, hk, h']
    · simp [aupd, alook, hk, ih]

theorem alook_adel_ne {κ α : Type} [DecidableEq κ] {k k' : κ}
    (l : List (κ × α)) (h : k' ≠ k) : alook k' (adel k l) = alook k' l := by
  have h' : ¬ (k = k') := fun hh => h hh.symm
  induction l with
  | nil => simp [adel, alook]
  | cons hd t ih =>
    by_cases hk : hd.1 = k
    · simp [adel, alook, hk, h']
    · simp [adel, alook, hk, ih]

theorem mem_akeys_iff_alook {κ α : Type} [DecidableEq κ] (k : κ)
    (l : List (κ × α)) : k ∈ akeys l ↔ (alook k l).isSome = true := by
  induction l with
  | nil => simp [alook, akeys_nil]
  | cons hd t ih =>
    rw [akeys_cons, List.mem_cons]
    by_cases hk : hd.1 = k
    · simp [alook, hk]
    · have h' : ¬ (k = hd.1) := fun hh => hk hh.symm
      simp [alook, hk, h', ih]

theorem alook_eq_none_of_not_mem {κ α : Type} [DecidableEq κ] {k : κ}
    {l : List (κ × α)} (h : k ∉ akeys l) : alook k l = none := by
  cases hl : alook k l with
  | none => rfl
  | some v =>
    exact absurd ((mem_akeys_iff_alook k l).mpr (by simp [hl])) h

theorem alook_mem {κ α : Type} [DecidableEq κ] {k : κ} {v : α}
    {l : List (κ × α)} (h : alook k l = some v) : (k, v) ∈ l := by
  induction l with
  | nil => simp [alook] at h
  | cons hd t ih =>
    by_cases hk : hd.1 = k
    · simp [alook, hk] at h
      refine List.mem_cons.mpr (Or.inl ?_)
      rcases hd with ⟨a, b⟩
      simp at hk h
      simp [hk, h]
    · simp [alook, hk] at h
      exact List.mem_cons_of_mem _ (ih h)

theorem mem_akeys_of_pair {κ α : Type} {k : κ} {v : α} {l : List (κ × α)}
    (h : (k, v) ∈ l) : k ∈ akeys l := by
  have := List.mem_map_of_mem Prod.fst h
  simpa [akeys] using this

theorem mem_alook {κ α : Type} [DecidableEq κ] {k : κ} {v : α}
    {l : List (κ × α)} (hnd : (akeys l).Nodup) (h : (k, v) ∈ l) :
    alook k l = some v := by
  induction l with
  | nil => simp at h
  | cons hd t ih =>
    rw [akeys_cons, List.nodup_cons] at hnd
    rcases List.mem_cons.mp h with h1 | h1
    · simp [alook, ← h1]
    · have hkt : k ∈ akeys t := mem_akeys_of_pair h1
      have hk : hd.1 ≠ k := fun he => hnd.1 (he ▸ hkt)
      simp [alook, hk]
      exact ih hnd.2 h1

theorem akeys_aupd {κ α : Type} [DecidableEq κ] (k : κ) (f : α → α)
    (l : List (κ × α)) : akeys (aupd k f l) = akeys l := by
  induction l with
  | nil => simp [aupd]
  | cons hd t ih =>
    by_cases hk : hd.1 = k
    · simp [aupd, hk, akeys_cons]
    · simp [aupd, hk, akeys_cons, ih]

theorem akeys_aset_mem {κ α : Type} [DecidableEq κ] {k : κ} (v : α)
    {l : List (κ × α)} (h : k ∈ akeys l) : akeys (aset k v l) = akeys l := by
  induction l with
  | nil => simp [akeys_nil] at h
  | cons hd t ih =>
    rw [akeys_cons, List.mem_cons] at h
    by_cases hk : hd.1 = k
    · simp [aset, hk, akeys_cons]
    · have h1 : k ∈ akeys t := by
        rcases h with h | h
        · exact absurd h.symm hk
        · exact h
      simp [aset, hk, akeys_cons, ih h1]

theorem akeys_aset_not_mem {κ α : Type} [DecidableEq κ] {k : κ} (v : α)
    {l : List (κ × α)} (h : k ∉ akeys l) : akeys (aset k v l) = akeys l ++ [k] := by
  induction l with
  | nil => simp [aset, akeys]
  | cons hd t ih =>
    rw [akeys_cons, List.mem_cons] at h
    push_neg at h
    simp [aset, Ne.symm h.1, akeys_cons, ih h.2]

theorem nodup_akeys_aset {κ α : Type} [DecidableEq κ] (k : κ) (v : α)
    {l : List (κ × α)} (h : (akeys l).Nodup) : (akeys (aset k v l)).Nodup := by
  by_cases hm : k ∈ akeys l
  · rwa [akeys_aset_mem v hm]
  · rw [akeys_aset_not_mem v hm]
    simp [List.nodup_append, h, hm]

theorem alook_adel_self {κ α : Type} [DecidableEq κ] (k : κ)
    {l : List (κ × α)} (hnd : (akeys l).Nodup) : alook k (adel k l) = none := by
  induction l with
  | nil => simp [adel, alook]
  | cons hd t ih =>
    rw [akeys_cons, List.nodup_cons] at hnd
    by_cases hk : hd.1 = k
    · simp only [adel, if_pos hk]
      exact alook_eq_none_of_not_mem (hk ▸ hnd.1)
    · simp [adel, alook, hk]
      exact ih hnd.2

theorem akeys_adel_sub {κ α : Type} [DecidableEq κ] (k : κ)
    (l : List (κ × α)) : ∀ x ∈ akeys (adel k l), x ∈ akeys l := by
  induction l with
  | nil => simp [adel]
  | cons hd t ih =>
    intro x hx
    rw [akeys_cons, List.mem_cons]
    by_cases hk : hd.1 = k
    · simp only [adel, if_pos hk] at hx
      exact Or.inr hx
    · simp only [adel, if_neg hk, akeys_cons, List.mem_cons] at hx
      rcases hx with hx | hx
      · exact Or.inl hx
      · exact Or.inr (ih x hx)

theorem nodup_akeys_adel {κ α : Type} [DecidableEq κ] (k : κ)
    {l : List (κ × α)} (h : (akeys l).Nodup) : (akeys (adel k l)).Nodup := by
  induction l with
  | nil => simpa [adel] using h
  | cons hd t ih =>
    rw [akeys_cons, List.nodup_cons] at h
    by_cases hk : hd.1 = k
    · simp only [adel, if_pos hk]
      exact h.2
    · simp only [adel, if_neg hk, akeys_cons, List.nodup_cons]
      exact ⟨fun hm => h.1 (akeys_adel_sub k t hd.1 hm), ih h.2⟩

theorem alook_map_val {κ α β : Type} [DecidableEq κ] (k : κ) (f : α → β)
    (l : List (κ × α)) :
    alook k (l.map (fun kv => (kv.1, f kv.2))) = (alook k l).map f := by
  induction l with
  | nil => simp [alook]
  | cons hd t ih =>
    by_cases hk : hd.1 = k <;> simp [alook, hk, ih]

theorem akeys_map_val {κ α β : Type} (f : α → β) (l : List (κ × α)) :
    akeys (l.map (fun kv => (kv.1, f kv.2))) = akeys l := by
  induction l with
  | nil => rfl
  | cons hd t ih => simp [akeys_cons, ih]

/-! ## SpatialAudioManager helper lemmas -/

theorem update_preserves (m : SpatialAudioManager) (pid : Nat) (p : V3) :
    akeys (updateAudioSourcePosition m pid p).audioSources = akeys m.audioSources ∧
    (updateAudioSourcePosition m pid p).isEnabled = m.isEnabled ∧
    (updateAudioSourcePosition m pid p).inited = m.inited := by
  unfold updateAudioSourcePosition
  split
  · exact ⟨akeys_aupd pid _ m.audioSources, rfl, rfl⟩
  · exact ⟨rfl, rfl, rfl⟩

theorem foldl_update_preserves (g : SpatialAudioManager → Nat × SourceData → V3) :
    ∀ (l : List (Nat × SourceData)) (acc : SpatialAudioManager),
      akeys ((l.foldl (fun a kv => updateAudioSourcePosition a kv.1 (g a kv)) acc).audioSources)
          = akeys acc.audioSources ∧
      (l.foldl (fun a kv => updateAudioSourcePosition a kv.1 (g a kv)) acc).isEnabled
          = acc.isEnabled ∧
      (l.foldl (fun a kv => updateAudioSourcePosition a kv.1 (g a kv)) acc).inited
          = acc.inited := by
  intro l
  induction l with
  | nil => intro acc; exact ⟨rfl, rfl, rfl⟩
  | cons hd t ih =>
    intro acc
    have h1 := update_preserves acc hd.1 (g acc hd)
    have h2 := ih (updateAudioSourcePosition acc hd.1 (g acc hd))
    exact ⟨h2.1.trans h1.1, h2.2.1.trans h1.2.1, h2.2.2.trans h1.2.2⟩

theorem toggle_preserves_keys (m : SpatialAudioManager) :
    akeys (toggleSpatialAudio m).audioSources = akeys m.audioSources ∧
    (toggleSpatialAudio m).inited = m.inited := by
  unfold toggleSpatialAudio
  dsimp only
  split
  · have h := foldl_update_preserves (fun _ _ => origin) m.audioSources
      { m with isEnabled := !m.isEnabled }
    exact ⟨h.1, h.2.2⟩
  · have h := foldl_update_preserves
      (fun a kv => (match alook kv.1 a.audioSources with
        | some sd => sd.position
        | none => origin)) m.audioSources { m with isEnabled := !m.isEnabled }
    exact ⟨h.1, h.2.2⟩

/-! ## Claim theorems: client side -/

/-- C1 (corrected): `gainFor` is monotonically non-increasing on
nonnegative distances, bounded to `[0.05, 0.5]` (the floor is
`baseVolume * lowerBound = 0.5 * 0.1 = 0.05`, not `0.1`), and equals
`0.5` at distance 0. -/
theorem gainFor_monotone_bounded :
    (∀ d1 d2 : ℚ, 0 ≤ d1 → d1 ≤ d2 → gainFor d2 ≤ gainFor d1) ∧
    (∀ d : ℚ, 0 ≤ d → 1/20 ≤ gainFor d ∧ gainFor d ≤ 1/2) ∧
    gainFor 0 = 1/2 := by
  refine ⟨?_, ?_, by norm_num [gainFor]⟩
  · intro d1 d2 h0 h12
    unfold gainFor
    have hp1 : (0:ℚ) < 1 + d1 * (1/10) := by linarith
    have hle : 1 + d1 * (1/10) ≤ 1 + d2 * (1/10) := by linarith
    have hdiv : 1 / (1 + d2 * (1/10)) ≤ 1 / (1 + d1 * (1/10)) :=
      one_div_le_one_div_of_le hp1 hle
    have hmin : min 1 (1 / (1 + d2 * (1/10))) ≤ min 1 (1 / (1 + d1 * (1/10))) :=
      min_le_min le_rfl hdiv
    have hmax : max (1/10) (min 1 (1 / (1 + d2 * (1/10))))
        ≤ max (1/10) (min 1 (1 / (1 + d1 * (1/10)))) := max_le_max le_rfl hmin
    linarith
  · intro d _
    unfold gainFor
    constructor
    · have h1 : (1/10 : ℚ) ≤ max (1/10) (min 1 (1 / (1 + d * (1/10)))) :=
        le_max_left _ _
      linarith
    · have h2 : max (1/10 : ℚ) (min 1 (1 / (1 + d * (1/10)))) ≤ 1 :=
        max_le (by norm_num) (min_le_left _ _)
      linarith

/-- C1 witness: the monotonicity and bound conjuncts applied at concrete
distances. -/
theorem gainFor_monotone_bounded_witness :
    gainFor 7 ≤ gainFor 3 ∧ (1/20 ≤ gainFor 3 ∧ gainFor 3 ≤ 1/2) :=
  ⟨gainFor_monotone_bounded.1 3 7 (by norm_num) (by norm_num),
   gainFor_monotone_bounded.2.1 3 (by norm_num)⟩

/-- C1 counterexample: at distance 90 the gain is
`0.5 * clamp(1/10, 0.1, 1) = 0.05`, strictly below the claimed lower
bound `0.1`, so the gain is not bounded to `[0.1, 0.5]`. -/
theorem gainFor_spec_bound_fails : (0:ℚ) ≤ 90 ∧ gainFor 90 < 1/10 :=
  ⟨by norm_num, by norm_num [gainFor]⟩

/-- C5 (confirmed): the canvas-to-world and world-to-canvas transforms
are exact inverses on the x and z axes for any positive canvas size, the
world `y` is held at 0, and both axes are scaled by the world-radius
constant 10. -/
theorem canvasToWorld_roundtrip (px py w h : ℚ) (hw : 0 < w) (hh : 0 < h)
    (hpx : 0 ≤ px ∧ px ≤ w) (hpy : 0 ≤ py ∧ py ≤ h) :
    worldToCanvasPosition (canvasToWorldPosition px py w h).x
        (canvasToWorldPosition px py w h).y
        (canvasToWorldPosition px py w h).z w h = (px, py) ∧
    (canvasToWorldPosition px py w h).y = 0 ∧
    (canvasToWorldPosition px py w h).x = ((px / w) * 2 - 1) * 10 ∧
    (canvasToWorldPosition px py w h).z = ((py / h) * 2 - 1) * 10 := by
  refine ⟨?_, rfl, rfl, rfl⟩
  have hw' : w ≠ 0 := ne_of_gt hw
  have hh' : h ≠ 0 := ne_of_gt hh
  unfold canvasToWorldPosition worldToCanvasPosition
  simp only [Prod.mk.injEq]
  constructor
  · field_simp
    ring
  · field_simp
    ring

/-- C5 witness: round trip at pixel (200, 150) on an 800 × 600 canvas. -/
theorem canvasToWorld_roundtrip_witness :
    worldToCanvasPosition (canvasToWorldPosition 200 150 800 600).x
        (canvasToWorldPosition 200 150 800 600).y
        (canvasToWorldPosition 200 150 800 600).z 800 600 = (200, 150) :=
  (canvasToWorld_roundtrip 200 150 800 600 (by norm_num) (by norm_num)
    ⟨by norm_num, by norm_num⟩ ⟨by norm_num, by norm_num⟩).1

/-- C2 (code bug): toggling spatial mode off does NOT set the active
sources' panner positions to the origin.  `toggleSpatialAudio` flips
`isEnabled` to `false` before calling `updateAudioSourcePosition`, whose
`isEnabled` guard then makes every call a no-op — contradicting the
handler's own comment ("Disable spatial audio by setting all positions
to center").  Concretely: a source at `(3, 0, 4)` keeps panner position
`(3, 0, 4)` after the toggle. -/
theorem toggleSpatialAudio_off_keeps_position :
    (toggleSpatialAudio mgrOne).isEnabled = false ∧
    alook 7 (toggleSpatialAudio mgrOne).audioSources =
      some { pannerPos := ⟨3, 0, 4⟩, position := ⟨3, 0, 4⟩ } ∧
    (⟨3, 0, 4⟩ : V3) ≠ origin := by
  refine ⟨rfl, rfl, ?_⟩
  intro hcon
  have := congrArg V3.x hcon
  norm_num [origin] at this

/-- C10 (confirmed): while the manager is uninitialized or spatial mode
is off, `addAudioSource` returns `false` and leaves the source map
untouched; and `toggleSpatialAudio` never adds a source (it preserves
the key set of `audioSources`), so such a peer stays without a source
even after re-enabling. -/
theorem addAudioSource_disabled_rejects :
    (∀ (m : SpatialAudioManager) (pid : Nat),
        m.inited = false ∨ m.isEnabled = false →
        addAudioSource m pid = (false, m)) ∧
    (∀ m : SpatialAudioManager,
        akeys (toggleSpatialAudio m).audioSources = akeys m.audioSources) := by
  constructor
  · intro m pid hcond
    unfold addAudioSource
    rw [if_pos hcond]
  · intro m
    exact (toggle_preserves_keys m).1

/-- C10 witness: a disabled manager rejects a new source, and toggling
the one-source manager keeps its key set. -/
theorem addAudioSource_disabled_rejects_witness :
    addAudioSource mgrOff 3 = (false, mgrOff) ∧
    akeys (toggleSpatialAudio mgrOne).audioSources = akeys mgrOne.audioSources :=
  ⟨addAudioSource_disabled_rejects.1 mgrOff 3 (Or.inr rfl),
   addAudioSource_disabled_rejects.2 mgrOne⟩

/-! ## Further association-list lemmas -/

theorem aupd_not_mem {κ α : Type} [DecidableEq κ] {k : κ} (f : α → α)
    {l : List (κ × α)} (h : k ∉ akeys l) : aupd k f l = l := by
  induction l with
  | nil => rfl
  | cons hd t ih =>
    rw [akeys_cons, List.mem_cons] at h
    push_neg at h
    simp [aupd, Ne.symm h.1, ih h.2]

theorem mem_adel_sub {κ α : Type} [DecidableEq κ] {k : κ} {p : κ × α}
    {l : List (κ × α)} (h : p ∈ adel k l) : p ∈ l := by
  induction l with
  | nil => simpa [adel] using h
  | cons hd t ih =>
    by_cases hk : hd.1 = k
    · simp only [adel, if_pos hk] at h
      exact List.mem_cons_of_mem _ h
    · simp only [adel, if_neg hk] at h
      rcases List.mem_cons.mp h with h1 | h1
      · exact List.mem_cons.mpr (Or.inl h1)
      · exact List.mem_cons_of_mem _ (ih h1)

theorem mem_adel_nodup {κ α : Type} [DecidableEq κ] {k : κ} {p : κ × α}
    {l : List (κ × α)} (hnd : (akeys l).Nodup) (h : p ∈ adel k l) :
    p ∈ l ∧ p.1 ≠ k := by
  refine ⟨mem_adel_sub h, ?_⟩
  intro hpk
  have hmem : alook k (adel k l) = none := alook_adel_self k hnd
  have : p.1 ∈ akeys (adel k l) := mem_akeys_of_pair h
  rw [hpk] at this
  rw [mem_akeys_iff_alook, hmem] at this
  simp at this

theorem mem_aset_nodup {κ α : Type} [DecidableEq κ] {k : κ} {v : α} {p : κ × α}
    {l : List (κ × α)} (hnd : (akeys l).Nodup) (h : p ∈ aset k v l) :
    p = (k, v) ∨ (p ∈ l ∧ p.1 ≠ k) := by
  induction l with
  | nil =>
    simp only [aset, List.mem_singleton] at h
    exact Or.inl h
  | cons hd t ih =>
    rw [akeys_cons, List.nodup_cons] at hnd
    by_cases hk : hd.1 = k
    · simp only [aset, if_pos hk] at h
      rcases List.mem_cons.mp h with h1 | h1
      · exact Or.inl h1
      · refine Or.inr ⟨List.mem_cons_of_mem _ h1, ?_⟩
        intro hpk
        exact hnd.1 (hk ▸ hpk ▸ mem_akeys_of_pair h1)
    · simp only [aset, if_neg hk] at h
      rcases List.mem_cons.mp h with h1 | h1
      · exact Or.inr ⟨List.mem_cons.mpr (Or.inl h1), by rw [h1]; exact hk⟩
      · rcases ih hnd.2 h1 with h2 | h2
        · exact Or.inl h2
        · exact Or.inr ⟨List.mem_cons_of_mem _ h2.1, h2.2⟩

theorem mem_aupd_nodup {κ α : Type} [DecidableEq κ] {k : κ} {f : α → α} {p : κ × α}
    {l : List (κ × α)} (hnd : (akeys l).Nodup) (h : p ∈ aupd k f l) :
    (p ∈ l ∧ p.1 ≠ k) ∨ (∃ v, (k, v) ∈ l ∧ p = (k, f v)) := by
  induction l with
  | nil => simp [aupd] at h
  | cons hd t ih =>
    rw [akeys_cons, List.nodup_cons] at hnd
    by_cases hk : hd.1 = k
    · simp only [aupd, if_pos hk] at h
      rcases List.mem_cons.mp h with h1 | h1
      · refine Or.inr ⟨hd.2, ?_, ?_⟩
        · rw [← hk]
          exact List.mem_cons.mpr (Or.inl rfl)
        · rw [h1, hk]
      · refine Or.inl ⟨List.mem_cons_of_mem _ h1, ?_⟩
        intro hpk
        exact hnd.1 (hk ▸ hpk ▸ mem_akeys_of_pair h1)
    · simp only [aupd, if_neg hk] at h
      rcases List.mem_cons.mp h with h1 | h1
      · exact Or.inl ⟨List.mem_cons.mpr (Or.inl h1), by rw [h1]; exact hk⟩
      · rcases ih hnd.2 h1 with h2 | h2
        · exact Or.inl ⟨List.mem_cons_of_mem _ h2.1, h2.2⟩
        · obtain ⟨v, hv1, hv2⟩ := h2
          exact Or.inr ⟨v, List.mem_cons_of_mem _ hv1, hv2⟩

theorem akeys_adel_of_nodup {κ α : Type} [DecidableEq κ] (k : κ)
    {l : List (κ × α)} (hnd : (akeys l).Nodup) :
    akeys (adel k l) = (akeys l).filter (fun x => x != k) := by
  induction l with
  | nil => rfl
  | cons hd t ih =>
    rw [akeys_cons, List.nodup_cons] at hnd
    by_cases hk : hd.1 = k
    · simp only [adel, if_pos hk, akeys_cons, List.filter_cons]
      rw [hk]
      simp only [bne_self_eq_false, Bool.false_eq_true, if_false]
      rw [List.filter_eq_self.mpr]
      intro a ha
      rw [bne_iff_ne]
      intro hak
      exact hnd.1 (hk ▸ hak ▸ ha)
    · simp only [adel, if_neg hk, akeys_cons, List.filter_cons]
      have : (hd.1 != k) = true := bne_iff_ne.mpr hk
      rw [this]
      simp only [if_true]
      rw [ih hnd.2]

theorem aset_ne_nil {κ α : Type} [DecidableEq κ] (k : κ) (v : α)
    (l : List (κ × α)) : aset k v l ≠ [] := by
  cases l with
  | nil => simp [aset]
  | cons hd t =>
    by_cases hk : hd.1 = k <;> simp [aset, hk]

theorem alook_aupd_isSome {κ α : Type} [DecidableEq κ] (k k' : κ) (f : α → α)
    (l : List (κ × α)) : (alook k' (aupd k f l)).isSome = (alook k' l).isSome := by
  by_cases hk : k' = k
  · rw [hk, alook_aupd_self]
    cases alook k l <;> rfl
  · rw [alook_aupd_ne f l hk]

theorem filter_ne_of_not_mem {s : Nat} {ms : List Nat}
    (h : ∀ x ∈ ms, x ≠ s) : ms.filter (fun x => x != s) = ms :=
  List.filter_eq_self.mpr (fun a ha => bne_iff_ne.mpr (h a ha))

theorem alook_sioAdd_ne {k k' : SioKey} (s : Nat) (l : List (SioKey × List Nat))
    (h : k' ≠ k) : alook k' (sioAdd k s l) = alook k' l := by
  unfold sioAdd
  cases alook k l with
  | some ms => exact alook_aupd_ne _ l h
  | none => exact alook_aset_ne _ l h

theorem alook_sioAdd_self (k : SioKey) (s : Nat) (l : List (SioKey × List Nat)) :
    alook k (sioAdd k s l) =
      some (if s ∈ (alook k l).getD [] then (alook k l).getD []
            else (alook k l).getD [] ++ [s]) := by
  unfold sioAdd
  cases hl : alook k l with
  | some ms => rw [alook_aupd_self, hl]; rfl
  | none => rw [alook_aset_self]; simp

/-! ## Consequences of the invariant -/

theorem regMemB_iff_sockRoom {st : ServerState} (hinv : SrvInv st) (r s : Nat) :
    regMemB st r s = true ↔ sockRoom st s = some r := by
  obtain ⟨_, hN2, _, _, _, hMS, hSM, _, _, _⟩ := hinv
  constructor
  · intro h
    unfold regMemB regMembers at h
    cases hmem : alook r st.rooms with
    | none => rw [hmem] at h; simp [alook] at h
    | some mem =>
      rw [hmem] at h
      simp only [Option.getD_some] at h
      cases hu : alook s mem with
      | none => rw [hu] at h; simp at h
      | some u =>
        exact hMS (r, mem) (alook_mem hmem) (s, u) (alook_mem hu)
  · intro h
    unfold sockRoom at h
    cases hi : alook s st.sockets with
    | none => rw [hi] at h; simp at h
    | some i =>
      rw [hi] at h
      simp only [Option.some_bind] at h
      have := hSM (s, i) (alook_mem hi)
      unfold roomIdOkB at this
      rw [h] at this
      simpa using this

theorem lives_of_regMemB {st : ServerState} (hinv : SrvInv st) {r s : Nat}
    (h : regMemB st r s = true) : livesB st s = true := by
  have hsr := (regMemB_iff_sockRoom hinv r s).mp h
  unfold sockRoom at hsr
  unfold livesB
  cases hi : alook s st.sockets with
  | none => rw [hi] at hsr; simp at hsr
  | some i => simp

theorem sio_room_eq {st : ServerState} (hinv : SrvInv st) {r : Nat}
    {mem : List (Nat × UserData)} (h : alook r st.rooms = some mem) :
    sioMembers st (SioKey.room r) = akeys mem := by
  obtain ⟨_, _, _, _, _, _, _, _, _, hSR⟩ := hinv
  have := hSR (r, mem) (alook_mem h)
  unfold sioMembers
  rw [this]
  rfl

theorem sio_room_absent {st : ServerState} (hinv : SrvInv st) {r : Nat}
    (h : alook r st.rooms = none) : sioMembers st (SioKey.room r) = [] := by
  obtain ⟨_, _, _, _, _, _, _, _, hSE, _⟩ := hinv
  unfold sioMembers
  cases hs : alook (SioKey.room r) st.sioRooms with
  | none => rfl
  | some ms =>
    have := hSE (SioKey.room r, ms) (alook_mem hs)
    unfold sioEntryOkB at this
    simp only [beq_iff_eq] at this
    unfold regMembersKeys regMembers at this
    rw [h] at this
    simpa using this

theorem sio_sock_live {st : ServerState} (hinv : SrvInv st) {t : Nat}
    (h : livesB st t = true) : sioMembers st (SioKey.sock t) = [t] := by
  obtain ⟨_, _, _, _, _, _, _, hSS, _, _⟩ := hinv
  unfold livesB at h
  cases hi : alook t st.sockets with
  | none => rw [hi] at h; simp at h
  | some i =>
    have := hSS (t, i) (alook_mem hi)
    unfold sioMembers
    rw [this]
    rfl

theorem sio_sock_dead {st : ServerState} (hinv : SrvInv st) {t : Nat}
    (h : livesB st t = false) : sioMembers st (SioKey.sock t) = [] := by
  obtain ⟨_, _, _, _, _, _, _, _, hSE, _⟩ := hinv
  unfold sioMembers
  cases hs : alook (SioKey.sock t) st.sioRooms with
  | none => rfl
  | some ms =>
    have := hSE (SioKey.sock t, ms) (alook_mem hs)
    simp only [sioEntryOkB, beq_iff_eq] at this
    rw [h] at this
    simp at this
    simp [this]

/-! ## Handler state equations -/

theorem connectState_eq (st : ServerState) (sid : Nat) :
    connectState st sid =
      ⟨st.rooms, aset (SioKey.sock sid) [sid] st.sioRooms,
       aset sid ⟨none, 0, 0⟩ st.sockets⟩ := rfl

theorem joinState_rooms (st : ServerState) (sid r u n : Nat) :
    (joinState st sid r u n).rooms =
      aupd r (fun mem => aset sid ⟨u, n, origin, false⟩ mem)
        (if (alook r st.rooms).isSome then st.rooms else aset r [] st.rooms) := rfl

theorem joinState_sioRooms (st : ServerState) (sid r u n : Nat) :
    (joinState st sid r u n).sioRooms = sioAdd (SioKey.room r) sid st.sioRooms := rfl

theorem joinState_sockets (st : ServerState) (sid r u n : Nat) :
    (joinState st sid r u n).sockets =
      aupd sid (fun _ => ⟨some r, u, n⟩) st.sockets := rfl

theorem discState_eq_none {st : ServerState} {sid : Nat}
    (h : sockRoom st sid = none) :
    discState st sid =
      ⟨st.rooms, sioEraseAll sid st.sioRooms, adel sid st.sockets⟩ := by
  unfold discState
  rw [h]

theorem discState_eq_badroom {st : ServerState} {sid r0 : Nat}
    (hsr : sockRoom st sid = some r0) (hmem : alook r0 st.rooms = none) :
    discState st sid =
      ⟨st.rooms, sioEraseAll sid st.sioRooms, adel sid st.sockets⟩ := by
  unfold discState
  rw [hsr]
  dsimp only
  rw [hmem]

theorem discState_eq_del {st : ServerState} {sid r0 : Nat}
    {mem : List (Nat × UserData)}
    (hsr : sockRoom st sid = some r0) (hmem : alook r0 st.rooms = some mem)
    (hdel : adel sid mem = []) :
    discState st sid =
      ⟨adel r0 st.rooms, sioEraseAll sid st.sioRooms, adel sid st.sockets⟩ := by
  unfold discState
  rw [hsr]
  dsimp only
  rw [hmem]
  dsimp only
  rw [if_pos hdel]

theorem discState_eq_upd {st : ServerState} {sid r0 : Nat}
    {mem : List (Nat × UserData)}
    (hsr : sockRoom st sid = some r0) (hmem : alook r0 st.rooms = some mem)
    (hdel : ¬ adel sid mem = []) :
    discState st sid =
      ⟨aupd r0 (fun _ => adel sid mem) st.rooms, sioEraseAll sid st.sioRooms,
       adel sid st.sockets⟩ := by
  unfold discState
  rw [hsr]
  dsimp only
  rw [hmem]
  dsimp only
  rw [if_neg hdel]

theorem posState_eq_noroom {st : ServerState} {sid : Nat} (p : V3)
    (h : sockRoom st sid = none) : posState st sid p = st := by
  unfold posState
  rw [h]

theorem posState_eq_badroom {st : ServerState} {sid r0 : Nat} (p : V3)
    (hsr : sockRoom st sid = some r0) (hmem : alook r0 st.rooms = none) :
    posState st sid p = st := by
  unfold posState
  rw [hsr]
  dsimp only
  rw [hmem]

theorem posState_eq_notmem {st : ServerState} {sid r0 : Nat} (p : V3)
    {mem : List (Nat × UserData)}
    (hsr : sockRoom st sid = some r0) (hmem : alook r0 st.rooms = some mem)
    (hnot : ¬ (alook sid mem).isSome = true) : posState st sid p = st := by
  unfold posState
  rw [hsr]
  dsimp only
  rw [hmem]
  dsimp only
  rw [if_neg hnot]

theorem posState_eq_mem {st : ServerState} {sid r0 : Nat} (p : V3)
    {mem : List (Nat × UserData)}
    (hsr : sockRoom st sid = some r0) (hmem : alook r0 st.rooms = some mem)
    (hin : (alook sid mem).isSome = true) :
    posState st sid p =
      { st with
          rooms := aupd r0 (fun m => aupd sid (fun u => { u with position := p }) m)
                     st.rooms } := by
  unfold posState
  rw [hsr]
  dsimp only
  rw [hmem]
  dsimp only
  rw [if_pos hin]

theorem posOut_eq_noroom {st : ServerState} {sid : Nat} (p : V3)
    (h : sockRoom st sid = none) : posOut st sid p = [] := by
  unfold posOut
  rw [h]

theorem posOut_eq_badroom {st : ServerState} {sid r0 : Nat} (p : V3)
    (hsr : sockRoom st sid = some r0) (hmem : alook r0 st.rooms = none) :
    posOut st sid p = [] := by
  unfold posOut
  rw [hsr]
  dsimp only
  rw [hmem]

theorem posOut_eq_notmem {st : ServerState} {sid r0 : Nat} (p : V3)
    {mem : List (Nat × UserData)}
    (hsr : sockRoom st sid = some r0) (hmem : alook r0 st.rooms = some mem)
    (hnot : ¬ (alook sid mem).isSome = true) : posOut st sid p = [] := by
  unfold posOut
  rw [hsr]
  dsimp only
  rw [hmem]
  dsimp only
  rw [if_neg hnot]

theorem posOut_eq_mem {st : ServerState} {sid r0 : Nat} (p : V3)
    {mem : List (Nat × UserData)}
    (hsr : sockRoom st sid = some r0) (hmem : alook r0 st.rooms = some mem)
    (hin : (alook sid mem).isSome = true) :
    posOut st sid p =
      emitExcept (sioMembers st (SioKey.room r0)) sid
        (Msg.userPositionUpdate sid p) := by
  unfold posOut
  rw [hsr]
  dsimp only
  rw [hmem]
  dsimp only
  rw [if_pos hin]

theorem muteState_eq_noroom {st : ServerState} {sid : Nat} (b : Bool)
    (h : sockRoom st sid = none) : muteState st sid b = st := by
  unfold muteState
  rw [h]

theorem muteState_eq_badroom {st : ServerState} {sid r0 : Nat} (b : Bool)
    (hsr : sockRoom st sid = some r0) (hmem : alook r0 st.rooms = none) :
    muteState st sid b = st := by
  unfold muteState
  rw [hsr]
  dsimp only
  rw [hmem]

theorem muteState_eq_notmem {st : ServerState} {sid r0 : Nat} (b : Bool)
    {mem : List (Nat × UserData)}
    (hsr : sockRoom st sid = some r0) (hmem : alook r0 st.rooms = some mem)
    (hnot : ¬ (alook sid mem).isSome = true) : muteState st sid b = st := by
  unfold muteState
  rw [hsr]
  dsimp only
  rw [hmem]
  dsimp only
  rw [if_neg hnot]

theorem muteState_eq_mem {st : ServerState} {sid r0 : Nat} (b : Bool)
    {mem : List (Nat × UserData)}
    (hsr : sockRoom st sid = some r0) (hmem : alook r0 st.rooms = some mem)
    (hin : (alook sid mem).isSome = true) :
    muteState st sid b =
      { st with
          rooms := aupd r0 (fun m => aupd sid (fun u => { u with muted := b }) m)
                     st.rooms } := by
  unfold muteState
  rw [hsr]
  dsimp only
  rw [hmem]
  dsimp only
  rw [if_pos hin]

theorem muteOut_eq_noroom {st : ServerState} {sid : Nat} (b : Bool)
    (h : sockRoom st sid = none) : muteOut st sid b = [] := by
  unfold muteOut
  rw [h]

theorem muteOut_eq_badroom {st : ServerState} {sid r0 : Nat} (b : Bool)
    (hsr : sockRoom st sid = some r0) (hmem : alook r0 st.rooms = none) :
    muteOut st sid b = [] := by
  unfold muteOut
  rw [hsr]
  dsimp only
  rw [hmem]

theorem muteOut_eq_notmem {st : ServerState} {sid r0 : Nat} (b : Bool)
    {mem : List (Nat × UserData)}
    (hsr : sockRoom st sid = some r0) (hmem : alook r0 st.rooms = some mem)
    (hnot : ¬ (alook sid mem).isSome = true) : muteOut st sid b = [] := by
  unfold muteOut
  rw [hsr]
  dsimp only
  rw [hmem]
  dsimp only
  rw [if_neg hnot]

theorem muteOut_eq_mem {st : ServerState} {sid r0 : Nat} (b : Bool)
    {mem : List (Nat × UserData)}
    (hsr : sockRoom st sid = some r0) (hmem : alook r0 st.rooms = some mem)
    (hin : (alook sid mem).isSome = true) :
    muteOut st sid b =
      emitExcept (sioMembers st (SioKey.room r0)) sid
        (Msg.userMuteUpdate sid b) := by
  unfold muteOut
  rw [hsr]
  dsimp only
  rw [hmem]
  dsimp only
  rw [if_pos hin]

/-! ## Per-event registry characterizations -/

theorem regMemB_connect (st : ServerState) (sid r x : Nat) :
    regMemB (connectState st sid) r x = regMemB st r x := rfl

theorem regMembers_join_self (st : ServerState) (sid r u n : Nat) :
    regMembers (joinState st sid r u n) r
      = aset sid ⟨u, n, origin, false⟩ (regMembers st r) := by
  unfold regMembers
  rw [joinState_rooms, alook_aupd_self]
  cases hpres : alook r st.rooms with
  | some mem =>
    rw [if_pos (by rfl)]
    rw [hpres]
    rfl
  | none =>
    rw [if_neg (by simp)]
    rw [alook_aset_self]
    rfl

theorem regMembers_join_ne (st : ServerState) (sid r u n r' : Nat) (h : r' ≠ r) :
    regMembers (joinState st sid r u n) r' = regMembers st r' := by
  unfold regMembers
  rw [joinState_rooms, alook_aupd_ne _ _ h]
  split
  · rfl
  · rw [alook_aset_ne _ _ h]

theorem regMemB_join (st : ServerState) (sid r u n r' x : Nat) :
    regMemB (joinState st sid r u n) r' x =
      if r' = r then (if x = sid then true else regMemB st r x)
      else regMemB st r' x := by
  by_cases hr : r' = r
  · subst hr
    rw [if_pos rfl]
    unfold regMemB
    rw [regMembers_join_self]
    by_cases hx : x = sid
    · subst hx
      rw [alook_aset_self, if_pos rfl]
      rfl
    · rw [alook_aset_ne _ _ hx, if_neg hx]
  · rw [if_neg hr]
    unfold regMemB
    rw [regMembers_join_ne st sid r u n r' hr]

theorem adel_eq_nil {κ α : Type} [DecidableEq κ] {k : κ} {l : List (κ × α)}
    (h : adel k l = []) : l = [] ∨ ∃ v, l = [(k, v)] := by
  cases l with
  | nil => exact Or.inl rfl
  | cons hd t =>
    by_cases hk : hd.1 = k
    · simp only [adel, if_pos hk] at h
      subst h
      refine Or.inr ⟨hd.2, ?_⟩
      rw [← hk]
    · simp only [adel, if_neg hk] at h
      exact absurd h (List.cons_ne_nil _ _)

theorem regMemB_disc {st : ServerState} (hinv : SrvInv st) (sid r x : Nat) :
    regMemB (discState st sid) r x = (regMemB st r x && !(x == sid)) := by
  have hN2 : (akeys st.rooms).Nodup := hinv.2.1
  have hND : ∀ p ∈ st.rooms, (akeys p.2).Nodup := hinv.2.2.2.1
  have hnotmem : ∀ r'', sockRoom st sid ≠ some r'' → regMemB st r'' sid = false := by
    intro r'' hne
    cases hc : regMemB st r'' sid
    · rfl
    · exact absurd ((regMemB_iff_sockRoom hinv r'' sid).mp hc) hne
  cases hsr : sockRoom st sid with
  | none =>
    have hcongr : regMemB (discState st sid) r x = regMemB st r x := by
      rw [discState_eq_none hsr]
      rfl
    rw [hcongr]
    by_cases hx : x = sid
    · subst hx
      rw [hnotmem r (by rw [hsr]; intro hc; cases hc)]
      simp
    · simp [hx]
  | some r0 =>
    cases hmem : alook r0 st.rooms with
    | none =>
      exfalso
      have : regMemB st r0 sid = true := (regMemB_iff_sockRoom hinv r0 sid).mpr hsr
      unfold regMemB regMembers at this
      rw [hmem] at this
      simp [alook] at this
    | some mem =>
      have hndmem : (akeys mem).Nodup := hND (r0, mem) (alook_mem hmem)
      have hmemB : ∀ y, regMemB st r0 y = (alook y mem).isSome := by
        intro y
        unfold regMemB regMembers
        rw [hmem]
        rfl
      by_cases hdel : adel sid mem = []
      · have hcongr : regMemB (discState st sid) r x
            = (alook x ((alook r (adel r0 st.rooms)).getD [])).isSome := by
          rw [discState_eq_del hsr hmem hdel]
          rfl
        rw [hcongr]
        by_cases hr : r = r0
        · subst hr
          rw [alook_adel_self r hN2]
          simp only [Option.getD_none]
          rw [hmemB x]
          rcases adel_eq_nil hdel with hnil | ⟨v, hv⟩
          · subst hnil
            simp [alook]
          · subst hv
            by_cases hx : x = sid
            · subst hx
              simp [alook]
            · simp [alook, Ne.symm hx]
        · rw [alook_adel_ne _ (fun hh => hr hh)]
          rw [show (alook x ((alook r st.rooms).getD [])).isSome = regMemB st r x
                from rfl]
          by_cases hx : x = sid
          · subst hx
            rw [hnotmem r (by rw [hsr]; intro hc; exact hr (Option.some.inj hc).symm)]
            simp
          · simp [hx]
      · have hcongr : regMemB (discState st sid) r x
            = (alook x ((alook r (aupd r0 (fun _ => adel sid mem) st.rooms)).getD
                [])).isSome := by
          rw [discState_eq_upd hsr hmem hdel]
          rfl
        rw [hcongr]
        by_cases hr : r = r0
        · subst hr
          rw [alook_aupd_self, hmem]
          simp only [Option.map_some', Option.getD_some]
          rw [hmemB x]
          by_cases hx : x = sid
          · subst hx
            rw [alook_adel_self x hndmem]
            simp
          · rw [alook_adel_ne _ hx]
            simp [hx]
        · rw [alook_aupd_ne _ _ (fun hh => hr hh)]
          rw [show (alook x ((alook r st.rooms).getD [])).isSome = regMemB st r x
                from rfl]
          by_cases hx : x = sid
          · subst hx
            rw [hnotmem r (by rw [hsr]; intro hc; exact hr (Option.some.inj hc).symm)]
            simp
          · simp [hx]

/-! ## Invariant preservation -/

theorem akeys_eq_nil {κ α : Type} {l : List (κ × α)} :
    akeys l = [] ↔ l = [] := by
  cases l with
  | nil => simp [akeys_nil]
  | cons hd t => simp [akeys_cons]

theorem pair_of_mem_akeys {κ α : Type} {x : κ} {l : List (κ × α)}
    (h : x ∈ akeys l) : ∃ v, (x, v) ∈ l := by
  unfold akeys at h
  rcases List.mem_map.mp h with ⟨p, hp, hpx⟩
  exact ⟨p.2, by rw [← hpx]; exact hp⟩

theorem roomIdOkB_none (st : ServerState) (s : Nat) :
    roomIdOkB st none s = true := rfl

theorem roomIdOkB_some (st : ServerState) (r s : Nat) :
    roomIdOkB st (some r) s = regMemB st r s := rfl

theorem sioEntryOkB_room (st : ServerState) (r : Nat) (ms : List Nat) :
    sioEntryOkB st (SioKey.room r) ms = (ms == regMembersKeys st r) := rfl

theorem sioEntryOkB_sock (st : ServerState) (t : Nat) (ms : List Nat) :
    sioEntryOkB st (SioKey.sock t) ms
      = (ms == if livesB st t then [t] else []) := rfl

theorem srvInv_updVal {st : ServerState} (hinv : SrvInv st) (r sid : Nat)
    (f : UserData → UserData) :
    SrvInv { st with rooms := aupd r (fun m => aupd sid f m) st.rooms } := by
  obtain ⟨hN1, hN2, hN3, hND, hNE, hMS, hSM, hSS, hSE, hSR⟩ := hinv
  set st' : ServerState :=
    { st with rooms := aupd r (fun m => aupd sid f m) st.rooms } with hst'
  have hregMem : ∀ r'' y, regMemB st' r'' y = regMemB st r'' y := by
    intro r'' y
    unfold regMemB regMembers
    by_cases hr : r'' = r
    · subst hr
      rw [hst']
      simp only
      rw [alook_aupd_self]
      cases alook r'' st.rooms with
      | none => rfl
      | some mem =>
        simp only [Option.map_some', Option.getD_some]
        exact alook_aupd_isSome sid y f mem
    · rw [hst']
      simp only
      rw [alook_aupd_ne _ _ hr]
  have hregKeys : ∀ r'', regMembersKeys st' r'' = regMembersKeys st r'' := by
    intro r''
    unfold regMembersKeys regMembers
    by_cases hr : r'' = r
    · subst hr
      rw [hst']
      simp only
      rw [alook_aupd_self]
      cases alook r'' st.rooms with
      | none => rfl
      | some mem =>
        simp only [Option.map_some', Option.getD_some]
        exact akeys_aupd sid f mem
    · rw [hst']
      simp only
      rw [alook_aupd_ne _ _ hr]
  have hsock : st'.sockets = st.sockets := rfl
  have hsio : st'.sioRooms = st.sioRooms := rfl
  have hrooms : st'.rooms = aupd r (fun m => aupd sid f m) st.rooms := rfl
  refine ⟨?_, ?_, ?_, ?_, ?_, ?_, ?_, ?_, ?_, ?_⟩
  · rw [hsock]; exact hN1
  · rw [hrooms, akeys_aupd]; exact hN2
  · rw [hsio]; exact hN3
  · intro p hp
    rw [hrooms] at hp
    rcases mem_aupd_nodup hN2 hp with ⟨hp1, _⟩ | ⟨v, hv, hpeq⟩
    · exact hND p hp1
    · rw [hpeq]
      simp only
      rw [akeys_aupd]
      exact hND (r, v) hv
  · intro p hp
    rw [hrooms] at hp
    rcases mem_aupd_nodup hN2 hp with ⟨hp1, _⟩ | ⟨v, hv, hpeq⟩
    · exact hNE p hp1
    · rw [hpeq]
      simp only
      intro hc
      have : akeys (aupd sid f v) = ([] : List Nat) := by rw [hc]; rfl
      rw [akeys_aupd] at this
      exact hNE (r, v) hv (akeys_eq_nil.mp this)
  · intro p hp q hq
    have hsr : ∀ y, sockRoom st' y = sockRoom st y := fun _ => rfl
    rw [hrooms] at hp
    rcases mem_aupd_nodup hN2 hp with ⟨hp1, _⟩ | ⟨v, hv, hpeq⟩
    · rw [hsr]
      exact hMS p hp1 q hq
    · rw [hpeq] at hq
      simp only at hq
      rw [hsr, hpeq]
      rcases mem_aupd_nodup (hND (r, v) hv) hq with ⟨hq1, _⟩ | ⟨w, hw, hqeq⟩
      · exact hMS (r, v) hv q hq1
      · rw [hqeq]
        exact hMS (r, v) hv (sid, w) hw
  · intro p hp
    rw [hsock] at hp
    have hold := hSM p hp
    cases ho : p.2.roomId with
    | none => rw [roomIdOkB_none]
    | some r'' =>
      rw [ho, roomIdOkB_some] at hold
      rw [roomIdOkB_some, hregMem]
      exact hold
  · intro p hp
    rw [hsock] at hp
    rw [hsio]
    exact hSS p hp
  · intro p hp
    rw [hsio] at hp
    have hold := hSE p hp
    cases hk : p.1 with
    | room r'' =>
      rw [hk, sioEntryOkB_room] at hold
      rw [sioEntryOkB_room, hregKeys]
      exact hold
    | sock t =>
      rw [hk, sioEntryOkB_sock] at hold
      rw [sioEntryOkB_sock]
      exact hold
  · intro p hp
    rw [hrooms] at hp
    rw [hsio]
    rcases mem_aupd_nodup hN2 hp with ⟨hp1, _⟩ | ⟨v, hv, hpeq⟩
    · exact hSR p hp1
    · rw [hpeq]
      simp only
      rw [akeys_aupd]
      exact hSR (r, v) hv

theorem srvInv_pos {st : ServerState} (hinv : SrvInv st) (sid : Nat) (p : V3) :
    SrvInv (posState st sid p) := by
  cases hsr : sockRoom st sid with
  | none => rw [posState_eq_noroom p hsr]; exact hinv
  | some r0 =>
    cases hmem : alook r0 st.rooms with
    | none => rw [posState_eq_badroom p hsr hmem]; exact hinv
    | some mem =>
      by_cases hin : (alook sid mem).isSome = true
      · rw [posState_eq_mem p hsr hmem hin]
        exact srvInv_updVal hinv r0 sid _
      · rw [posState_eq_notmem p hsr hmem hin]
        exact hinv

theorem srvInv_mute {st : ServerState} (hinv : SrvInv st) (sid : Nat) (b : Bool) :
    SrvInv (muteState st sid b) := by
  cases hsr : sockRoom st sid with
  | none => rw [muteState_eq_noroom b hsr]; exact hinv
  | some r0 =>
    cases hmem : alook r0 st.rooms with
    | none => rw [muteState_eq_badroom b hsr hmem]; exact hinv
    | some mem =>
      by_cases hin : (alook sid mem).isSome = true
      · rw [muteState_eq_mem b hsr hmem hin]
        exact srvInv_updVal hinv r0 sid _
      · rw [muteState_eq_notmem b hsr hmem hin]
        exact hinv

theorem srvInv_connect {st : ServerState} (hinv : SrvInv st) (sid : Nat)
    (hfresh : livesB st sid = false) : SrvInv (connectState st sid) := by
  obtain ⟨hN1, hN2, hN3, hND, hNE, hMS, hSM, hSS, hSE, hSR⟩ := hinv
  have hnone : alook sid st.sockets = none := by
    unfold livesB at hfresh
    cases h : alook sid st.sockets with
    | none => rfl
    | some i => rw [h] at hfresh; cases hfresh
  have hsrnone : sockRoom st sid = none := by
    unfold sockRoom
    rw [hnone]
    rfl
  have hrooms : (connectState st sid).rooms = st.rooms := rfl
  have hsio : (connectState st sid).sioRooms
      = aset (SioKey.sock sid) [sid] st.sioRooms := rfl
  have hsock : (connectState st sid).sockets
      = aset sid ⟨none, 0, 0⟩ st.sockets := rfl
  have hregMem : ∀ r y, regMemB (connectState st sid) r y = regMemB st r y :=
    fun _ _ => rfl
  have hregKeys : ∀ r,
      regMembersKeys (connectState st sid) r = regMembersKeys st r :=
    fun _ => rfl
  have hlives : ∀ t, t ≠ sid →
      livesB (connectState st sid) t = livesB st t := by
    intro t ht
    unfold livesB
    rw [hsock, alook_aset_ne _ _ ht]
  have hlivesSid : livesB (connectState st sid) sid = true := by
    unfold livesB
    rw [hsock, alook_aset_self]
    rfl
  have hsockroom : ∀ t, t ≠ sid →
      sockRoom (connectState st sid) t = sockRoom st t := by
    intro t ht
    unfold sockRoom
    rw [hsock, alook_aset_ne _ _ ht]
  refine ⟨?_, ?_, ?_, ?_, ?_, ?_, ?_, ?_, ?_, ?_⟩
  · rw [hsock]
    exact nodup_akeys_aset _ _ hN1
  · rw [hrooms]
    exact hN2
  · rw [hsio]
    exact nodup_akeys_aset _ _ hN3
  · intro p hp
    rw [hrooms] at hp
    exact hND p hp
  · intro p hp
    rw [hrooms] at hp
    exact hNE p hp
  · intro p hp q hq
    rw [hrooms] at hp
    have hq1 := hMS p hp q hq
    have hqne : q.1 ≠ sid := by
      intro he
      rw [he, hsrnone] at hq1
      cases hq1
    rw [hsockroom q.1 hqne]
    exact hq1
  · intro p hp
    rw [hsock] at hp
    rcases mem_aset_nodup hN1 hp with hpeq | ⟨hp1, hpne⟩
    · rw [hpeq]
      rw [roomIdOkB_none]
    · have hold := hSM p hp1
      cases ho : p.2.roomId with
      | none => rw [roomIdOkB_none]
      | some r'' =>
        rw [ho, roomIdOkB_some] at hold
        rw [roomIdOkB_some, hregMem]
        exact hold
  · intro p hp
    rw [hsock] at hp
    rw [hsio]
    rcases mem_aset_nodup hN1 hp with hpeq | ⟨hp1, hpne⟩
    · rw [hpeq]
      exact alook_aset_self _ _ _
    · rw [alook_aset_ne _ _ (by
        intro hc
        exact hpne (SioKey.sock.inj hc))]
      exact hSS p hp1
  · intro p hp
    rw [hsio] at hp
    rcases mem_aset_nodup hN3 hp with hpeq | ⟨hp1, hpne⟩
    · rw [hpeq]
      rw [sioEntryOkB_sock, hlivesSid]
      simp
    · have hold := hSE p hp1
      cases hk : p.1 with
      | room r'' =>
        rw [hk, sioEntryOkB_room] at hold
        rw [sioEntryOkB_room, hregKeys]
        exact hold
      | sock t =>
        have htne : t ≠ sid := by
          intro he
          rw [he] at hk
          exact hpne hk
        rw [hk, sioEntryOkB_sock] at hold
        rw [sioEntryOkB_sock, hlives t htne]
        exact hold
  · intro p hp
    rw [hrooms] at hp
    rw [hsio, alook_aset_ne _ _ (by intro hc; cases hc)]
    exact hSR p hp

theorem join_rooms1_nodup {st : ServerState} (hN2 : (akeys st.rooms).Nodup)
    (r : Nat) :
    (akeys (if (alook r st.rooms).isSome then st.rooms
            else aset r [] st.rooms)).Nodup := by
  split
  · exact hN2
  · exact nodup_akeys_aset _ _ hN2

theorem join_rooms1_mem {st : ServerState} (hN2 : (akeys st.rooms).Nodup)
    {r : Nat} {p : Nat × List (Nat × UserData)}
    (hp : p ∈ (if (alook r st.rooms).isSome then st.rooms
               else aset r [] st.rooms))
    (hne : p.1 ≠ r) : p ∈ st.rooms := by
  split at hp
  · exact hp
  · rcases mem_aset_nodup hN2 hp with hpeq | ⟨h1, _⟩
    · exfalso
      apply hne
      rw [hpeq]
    · exact h1

theorem join_rooms1_alook_self (st : ServerState) (r : Nat) :
    alook r (if (alook r st.rooms).isSome then st.rooms
             else aset r [] st.rooms) = some (regMembers st r) := by
  unfold regMembers
  cases hpres : alook r st.rooms with
  | some mem =>
    rw [if_pos (by rfl), hpres]
    rfl
  | none =>
    rw [if_neg (by simp), alook_aset_self]
    rfl

theorem join_rooms1_alook_ne (st : ServerState) {r r' : Nat} (h : r' ≠ r) :
    alook r' (if (alook r st.rooms).isSome then st.rooms
              else aset r [] st.rooms) = alook r' st.rooms := by
  split
  · rfl
  · exact alook_aset_ne _ _ h

theorem join_rooms1_val {st : ServerState} (hN2 : (akeys st.rooms).Nodup)
    {r : Nat} {v : List (Nat × UserData)}
    (hv : (r, v) ∈ (if (alook r st.rooms).isSome then st.rooms
                    else aset r [] st.rooms)) :
    v = regMembers st r := by
  have hnd1 := join_rooms1_nodup hN2 r
  have h := mem_alook hnd1 hv
  rw [join_rooms1_alook_self st r] at h
  exact (Option.some.inj h).symm

theorem mem_sioAdd {k : SioKey} {s : Nat} {l : List (SioKey × List Nat)}
    (hnd : (akeys l).Nodup) {p : SioKey × List Nat} (hp : p ∈ sioAdd k s l) :
    (p ∈ l ∧ p.1 ≠ k) ∨
    (∃ ms, alook k l = some ms ∧ p = (k, if s ∈ ms then ms else ms ++ [s])) ∨
    (alook k l = none ∧ p = (k, [s])) := by
  unfold sioAdd at hp
  cases hl : alook k l with
  | some ms =>
    rw [hl] at hp
    have hp' : p ∈ aupd k (fun ms0 => if s ∈ ms0 then ms0 else ms0 ++ [s]) l := hp
    rcases mem_aupd_nodup hnd hp' with ⟨h1, h2⟩ | ⟨v, hv, hpeq⟩
    · exact Or.inl ⟨h1, h2⟩
    · have hvl : alook k l = some v := mem_alook hnd hv
      rw [hl] at hvl
      have hveq : ms = v := Option.some.inj hvl
      refine Or.inr (Or.inl ⟨ms, rfl, ?_⟩)
      rw [hpeq, ← hveq]
  | none =>
    rw [hl] at hp
    have hp' : p ∈ aset k [s] l := hp
    rcases mem_aset_nodup hnd hp' with hpeq | ⟨h1, h2⟩
    · exact Or.inr (Or.inr ⟨rfl, hpeq⟩)
    · exact Or.inl ⟨h1, h2⟩

theorem nodup_akeys_sioAdd (k : SioKey) (s : Nat) {l : List (SioKey × List Nat)}
    (h : (akeys l).Nodup) : (akeys (sioAdd k s l)).Nodup := by
  unfold sioAdd
  cases alook k l with
  | some ms =>
    have h2 : (akeys (aupd k (fun ms0 => if s ∈ ms0 then ms0 else ms0 ++ [s]) l)).Nodup := by
      rw [akeys_aupd]
      exact h
    exact h2
  | none => exact nodup_akeys_aset _ _ h

theorem srvInv_join {st : ServerState} (hinv : SrvInv st) (sid r u n : Nat)
    (hlive : livesB st sid = true)
    (hroom : sockRoom st sid = none ∨ sockRoom st sid = some r) :
    SrvInv (joinState st sid r u n) := by
  have hN1 := hinv.1
  have hN2 := hinv.2.1
  have hN3 := hinv.2.2.1
  have hND := hinv.2.2.2.1
  have hNE := hinv.2.2.2.2.1
  have hMS := hinv.2.2.2.2.2.1
  have hSM := hinv.2.2.2.2.2.2.1
  have hSS := hinv.2.2.2.2.2.2.2.1
  have hSE := hinv.2.2.2.2.2.2.2.2.1
  have hSR := hinv.2.2.2.2.2.2.2.2.2
  obtain ⟨i0, hi0⟩ : ∃ i, alook sid st.sockets = some i := by
    unfold livesB at hlive
    cases h : alook sid st.sockets with
    | none => rw [h] at hlive; cases hlive
    | some i => exact ⟨i, rfl⟩
  have hnd1 := join_rooms1_nodup hN2 r
  have hsrself : sockRoom (joinState st sid r u n) sid = some r := by
    unfold sockRoom
    rw [joinState_sockets, alook_aupd_self, hi0]
    rfl
  have hsrne : ∀ x, x ≠ sid →
      sockRoom (joinState st sid r u n) x = sockRoom st x := by
    intro x hx
    unfold sockRoom
    rw [joinState_sockets, alook_aupd_ne _ _ hx]
  have hlives' : ∀ t, livesB (joinState st sid r u n) t = livesB st t := by
    intro t
    unfold livesB
    rw [joinState_sockets]
    exact alook_aupd_isSome sid t _ st.sockets
  have hregKeys_ne : ∀ r', r' ≠ r →
      regMembersKeys (joinState st sid r u n) r' = regMembersKeys st r' := by
    intro r' hr
    unfold regMembersKeys
    rw [regMembers_join_ne st sid r u n r' hr]
  have hregKeys_self :
      regMembersKeys (joinState st sid r u n) r
        = (if sid ∈ regMembersKeys st r then regMembersKeys st r
           else regMembersKeys st r ++ [sid]) := by
    unfold regMembersKeys
    rw [regMembers_join_self]
    by_cases hmem : sid ∈ akeys (regMembers st r)
    · rw [akeys_aset_mem _ hmem, if_pos hmem]
    · rw [akeys_aset_not_mem _ hmem, if_neg hmem]
  have hndmem0 : (akeys (regMembers st r)).Nodup := by
    unfold regMembers
    cases hpres : alook r st.rooms with
    | none => exact List.nodup_nil
    | some mem => exact hND (r, mem) (alook_mem hpres)
  have hMS0 : ∀ q ∈ regMembers st r, sockRoom st q.1 = some r := by
    intro q hq
    unfold regMembers at hq
    cases hpres : alook r st.rooms with
    | none =>
      rw [hpres] at hq
      simp at hq
    | some mem =>
      rw [hpres] at hq
      exact hMS (r, mem) (alook_mem hpres) q hq
  refine ⟨?_, ?_, ?_, ?_, ?_, ?_, ?_, ?_, ?_, ?_⟩
  · rw [joinState_sockets, akeys_aupd]
    exact hN1
  · rw [joinState_rooms, akeys_aupd]
    exact hnd1
  · rw [joinState_sioRooms]
    exact nodup_akeys_sioAdd _ _ hN3
  · intro p hp
    rw [joinState_rooms] at hp
    rcases mem_aupd_nodup hnd1 hp with ⟨hp1, hpne⟩ | ⟨v, hv, hpeq⟩
    · exact hND p (join_rooms1_mem hN2 hp1 hpne)
    · rw [hpeq]
      have hvval := join_rooms1_val hN2 hv
      have hndv : (akeys v).Nodup := by
        rw [hvval]
        exact hndmem0
      exact nodup_akeys_aset _ _ hndv
  · intro p hp
    rw [joinState_rooms] at hp
    rcases mem_aupd_nodup hnd1 hp with ⟨hp1, hpne⟩ | ⟨v, hv, hpeq⟩
    · exact hNE p (join_rooms1_mem hN2 hp1 hpne)
    · rw [hpeq]
      exact aset_ne_nil _ _ _
  · intro p hp q hq
    rw [joinState_rooms] at hp
    rcases mem_aupd_nodup hnd1 hp with ⟨hp1, hpne⟩ | ⟨v, hv, hpeq⟩
    · have hpr := join_rooms1_mem hN2 hp1 hpne
      have hq1 := hMS p hpr q hq
      have hqne : q.1 ≠ sid := by
        intro he
        rw [he] at hq1
        rcases hroom with hr0 | hr0
        · rw [hr0] at hq1
          cases hq1
        · rw [hr0] at hq1
          exact hpne (Option.some.inj hq1).symm
      rw [hsrne q.1 hqne]
      exact hq1
    · rw [hpeq] at hq ⊢
      have hvval := join_rooms1_val hN2 hv
      rw [hvval] at hq
      have hq' : q ∈ aset sid ⟨u, n, origin, false⟩ (regMembers st r) := hq
      rcases mem_aset_nodup hndmem0 hq' with hqeq | ⟨hq1, hqne⟩
      · rw [hqeq]
        exact hsrself
      · rw [hsrne q.1 hqne]
        exact hMS0 q hq1
  · intro p hp
    rw [joinState_sockets] at hp
    rcases mem_aupd_nodup hN1 hp with ⟨hp1, hpne⟩ | ⟨v, hv, hpeq⟩
    · have hold := hSM p hp1
      cases ho : p.2.roomId with
      | none => rw [roomIdOkB_none]
      | some r'' =>
        rw [ho, roomIdOkB_some] at hold
        rw [roomIdOkB_some, regMemB_join]
        by_cases hr : r'' = r
        · rw [if_pos hr, if_neg hpne, ← hr]
          exact hold
        · rw [if_neg hr]
          exact hold
    · rw [hpeq]
      show roomIdOkB (joinState st sid r u n) (some r) sid = true
      rw [roomIdOkB_some, regMemB_join, if_pos rfl, if_pos rfl]
  · intro p hp
    rw [joinState_sockets] at hp
    rw [joinState_sioRooms]
    have hnek : ∀ x : Nat, SioKey.sock x ≠ SioKey.room r := by
      intro x hc
      cases hc
    rcases mem_aupd_nodup hN1 hp with ⟨hp1, hpne⟩ | ⟨v, hv, hpeq⟩
    · rw [alook_sioAdd_ne _ _ (hnek p.1)]
      exact hSS p hp1
    · rw [hpeq]
      show alook (SioKey.sock sid) (sioAdd (SioKey.room r) sid st.sioRooms)
          = some [sid]
      rw [alook_sioAdd_ne _ _ (hnek sid)]
      exact hSS (sid, i0) (alook_mem hi0)
  · intro p hp
    rw [joinState_sioRooms] at hp
    rcases mem_sioAdd hN3 hp with ⟨hp1, hpne⟩ | ⟨ms, hms, hpeq⟩ | ⟨hnone, hpeq⟩
    · have hold := hSE p hp1
      cases hk : p.1 with
      | room r'' =>
        have hrne : r'' ≠ r := by
          intro he
          rw [he] at hk
          exact hpne hk
        rw [hk, sioEntryOkB_room] at hold
        rw [sioEntryOkB_room, hregKeys_ne r'' hrne]
        exact hold
      | sock t =>
        rw [hk, sioEntryOkB_sock] at hold
        rw [sioEntryOkB_sock, hlives' t]
        exact hold
    · have hmsval : ms = regMembersKeys st r := by
        have h0 : sioEntryOkB st (SioKey.room r) ms = true :=
          hSE (SioKey.room r, ms) (alook_mem hms)
        rw [sioEntryOkB_room] at h0
        exact eq_of_beq h0
      rw [hpeq]
      show sioEntryOkB (joinState st sid r u n) (SioKey.room r)
          (if sid ∈ ms then ms else ms ++ [sid]) = true
      rw [sioEntryOkB_room, hregKeys_self, hmsval]
      simp
    · have hroomnone : alook r st.rooms = none := by
        cases hpres : alook r st.rooms with
        | none => rfl
        | some mem =>
          have h1 : alook (SioKey.room r) st.sioRooms = some (akeys mem) :=
            hSR (r, mem) (alook_mem hpres)
          rw [hnone] at h1
          cases h1
      rw [hpeq]
      show sioEntryOkB (joinState st sid r u n) (SioKey.room r) [sid] = true
      rw [sioEntryOkB_room, hregKeys_self]
      have hempty : regMembersKeys st r = [] := by
        unfold regMembersKeys regMembers
        rw [hroomnone]
        rfl
      rw [hempty]
      simp
  · intro p hp
    rw [joinState_rooms] at hp
    rw [joinState_sioRooms]
    rcases mem_aupd_nodup hnd1 hp with ⟨hp1, hpne⟩ | ⟨v, hv, hpeq⟩
    · have hpr := join_rooms1_mem hN2 hp1 hpne
      have hnek : SioKey.room p.1 ≠ SioKey.room r := by
        intro hc
        exact hpne (SioKey.room.inj hc)
      rw [alook_sioAdd_ne _ _ hnek]
      exact hSR p hpr
    · rw [hpeq]
      show alook (SioKey.room r) (sioAdd (SioKey.room r) sid st.sioRooms)
          = some (akeys (aset sid ⟨u, n, origin, false⟩ v))
      rw [alook_sioAdd_self]
      have hvval := join_rooms1_val hN2 hv
      have hms0 : (alook (SioKey.room r) st.sioRooms).getD []
          = regMembersKeys st r := by
        cases hsl : alook (SioKey.room r) st.sioRooms with
        | some ms =>
          have h0 : sioEntryOkB st (SioKey.room r) ms = true :=
            hSE (SioKey.room r, ms) (alook_mem hsl)
          rw [sioEntryOkB_room] at h0
          exact eq_of_beq h0
        | none =>
          cases hpres : alook r st.rooms with
          | none =>
            unfold regMembersKeys regMembers
            rw [hpres]
            rfl
          | some mem =>
            have h1 : alook (SioKey.room r) st.sioRooms = some (akeys mem) :=
              hSR (r, mem) (alook_mem hpres)
            rw [hsl] at h1
            cases h1
      rw [hms0, hvval]
      unfold regMembersKeys
      by_cases hin : sid ∈ akeys (regMembers st r)
      · rw [if_pos hin, akeys_aset_mem _ hin]
      · rw [if_neg hin, akeys_aset_not_mem _ hin]

theorem srvInv_disc_generic {st : ServerState} (hinv : SrvInv st) (sid : Nat)
    (rooms' : List (Nat × List (Nat × UserData)))
    (ha : (akeys rooms').Nodup)
    (hb1 : ∀ p ∈ rooms', (akeys p.2).Nodup)
    (hb2 : ∀ p ∈ rooms', p.2 ≠ [])
    (hc : ∀ p ∈ rooms', ∀ q ∈ p.2, sockRoom st q.1 = some p.1 ∧ q.1 ≠ sid)
    (hd : ∀ r x, x ≠ sid →
      (alook x ((alook r rooms').getD [])).isSome = regMemB st r x)
    (he : ∀ r, akeys ((alook r rooms').getD [])
      = (regMembersKeys st r).filter (fun x => x != sid))
    (hf : ∀ p ∈ rooms', ∃ old, alook p.1 st.rooms = some old ∧
      akeys p.2 = (akeys old).filter (fun x => x != sid)) :
    SrvInv ⟨rooms', sioEraseAll sid st.sioRooms, adel sid st.sockets⟩ := by
  have hN1 := hinv.1
  have hN3 := hinv.2.2.1
  have hSM := hinv.2.2.2.2.2.2.1
  have hSS := hinv.2.2.2.2.2.2.2.1
  have hSE := hinv.2.2.2.2.2.2.2.2.1
  have hSR := hinv.2.2.2.2.2.2.2.2.2
  have hsr2 : ∀ t, t ≠ sid →
      sockRoom ⟨rooms', sioEraseAll sid st.sioRooms, adel sid st.sockets⟩ t
        = sockRoom st t := by
    intro t ht
    show (alook t (adel sid st.sockets)).bind (fun i => i.roomId) = sockRoom st t
    rw [alook_adel_ne _ ht]
    rfl
  have hlives2 : ∀ t, t ≠ sid →
      livesB ⟨rooms', sioEraseAll sid st.sioRooms, adel sid st.sockets⟩ t
        = livesB st t := by
    intro t ht
    show (alook t (adel sid st.sockets)).isSome = livesB st t
    rw [alook_adel_ne _ ht]
    rfl
  have hlives2sid :
      livesB ⟨rooms', sioEraseAll sid st.sioRooms, adel sid st.sockets⟩ sid
        = false := by
    show (alook sid (adel sid st.sockets)).isSome = false
    rw [alook_adel_self sid hN1]
    rfl
  refine ⟨?_, ?_, ?_, ?_, ?_, ?_, ?_, ?_, ?_, ?_⟩
  · exact nodup_akeys_adel sid hN1
  · exact ha
  · show (akeys (sioEraseAll sid st.sioRooms)).Nodup
    unfold sioEraseAll
    rw [akeys_map_val]
    exact hN3
  · exact hb1
  · exact hb2
  · intro p hp q hq
    obtain ⟨h1, h2⟩ := hc p hp q hq
    rw [hsr2 q.1 h2]
    exact h1
  · intro p hp
    have hp' : p ∈ adel sid st.sockets := hp
    obtain ⟨hp1, hpne⟩ := mem_adel_nodup hN1 hp'
    have hold := hSM p hp1
    cases ho : p.2.roomId with
    | none => rw [roomIdOkB_none]
    | some r'' =>
      rw [ho, roomIdOkB_some] at hold
      rw [roomIdOkB_some]
      have hstep :
          regMemB ⟨rooms', sioEraseAll sid st.sioRooms, adel sid st.sockets⟩
            r'' p.1 = regMemB st r'' p.1 := hd r'' p.1 hpne
      rw [hstep]
      exact hold
  · intro p hp
    have hp' : p ∈ adel sid st.sockets := hp
    obtain ⟨hp1, hpne⟩ := mem_adel_nodup hN1 hp'
    show alook (SioKey.sock p.1) (sioEraseAll sid st.sioRooms) = some [p.1]
    unfold sioEraseAll
    rw [alook_map_val, hSS p hp1]
    have hkeep : [p.1].filter (fun x => x != sid) = [p.1] := by
      apply filter_ne_of_not_mem
      intro x hx
      rw [List.mem_singleton] at hx
      rw [hx]
      exact hpne
    rw [Option.map_some', hkeep]
  · intro p hp
    have hp' : p ∈ sioEraseAll sid st.sioRooms := hp
    unfold sioEraseAll at hp'
    obtain ⟨kv, hkv, hpeq⟩ := List.mem_map.mp hp'
    rw [← hpeq]
    have hold := hSE kv hkv
    cases hk : kv.1 with
    | room r'' =>
      rw [hk, sioEntryOkB_room] at hold
      show sioEntryOkB ⟨rooms', sioEraseAll sid st.sioRooms, adel sid st.sockets⟩
        (SioKey.room r'') (kv.2.filter (fun x => x != sid)) = true
      rw [sioEntryOkB_room]
      have he2 : regMembersKeys
          ⟨rooms', sioEraseAll sid st.sioRooms, adel sid st.sockets⟩ r''
            = (regMembersKeys st r'').filter (fun x => x != sid) := he r''
      rw [he2, eq_of_beq hold]
      simp
    | sock t =>
      rw [hk, sioEntryOkB_sock] at hold
      show sioEntryOkB ⟨rooms', sioEraseAll sid st.sioRooms, adel sid st.sockets⟩
        (SioKey.sock t) (kv.2.filter (fun x => x != sid)) = true
      rw [sioEntryOkB_sock]
      by_cases ht : t = sid
      · subst ht
        rw [hlives2sid, eq_of_beq hold]
        cases hls : livesB st t with
        | true => simp
        | false => simp
      · rw [hlives2 t ht, eq_of_beq hold]
        cases hls : livesB st t with
        | true =>
          simp only [if_true]
          have hkeep : [t].filter (fun x => x != sid) = [t] := by
            apply filter_ne_of_not_mem
            intro x hx
            rw [List.mem_singleton] at hx
            rw [hx]
            exact ht
          rw [hkeep]
          simp
        | false => simp
  · intro p hp
    obtain ⟨old, holda, holdk⟩ := hf p hp
    have h1 : alook (SioKey.room p.1) st.sioRooms = some (akeys old) :=
      hSR (p.1, old) (alook_mem holda)
    show alook (SioKey.room p.1) (sioEraseAll sid st.sioRooms) = some (akeys p.2)
    unfold sioEraseAll
    rw [alook_map_val, h1, Option.map_some', holdk]

theorem srvInv_disc {st : ServerState} (hinv : SrvInv st) (sid : Nat) :
    SrvInv (discState st sid) := by
  have hN2 := hinv.2.1
  have hND := hinv.2.2.2.1
  have hNE := hinv.2.2.2.2.1
  have hMS := hinv.2.2.2.2.2.1
  have hnot : ∀ r', sockRoom st sid ≠ some r' →
      ∀ x ∈ regMembersKeys st r', x ≠ sid := by
    intro r' hne x hx hxeq
    subst hxeq
    unfold regMembersKeys regMembers at hx
    cases hpres : alook r' st.rooms with
    | none =>
      rw [hpres] at hx
      simp [akeys_nil] at hx
    | some mem =>
      rw [hpres] at hx
      have hx' : x ∈ akeys mem := hx
      obtain ⟨w, hw⟩ := pair_of_mem_akeys hx'
      exact hne (hMS (r', mem) (alook_mem hpres) (x, w) hw)
  have hfself : ∀ r', sockRoom st sid ≠ some r' →
      (regMembersKeys st r').filter (fun x => x != sid)
        = regMembersKeys st r' := by
    intro r' hne
    exact filter_ne_of_not_mem (hnot r' hne)
  cases hsr : sockRoom st sid with
  | none =>
    have hneall : ∀ r', sockRoom st sid ≠ some r' := by
      intro r' hc
      rw [hsr] at hc
      cases hc
    rw [discState_eq_none hsr]
    refine srvInv_disc_generic hinv sid st.rooms hN2 hND hNE ?_ ?_ ?_ ?_
    · intro p hp q hq
      refine ⟨hMS p hp q hq, ?_⟩
      intro he
      have h1 := hMS p hp q hq
      rw [he, hsr] at h1
      cases h1
    · intro r x _
      rfl
    · intro r
      rw [hfself r (hneall r)]
      rfl
    · intro p hp
      refine ⟨p.2, mem_alook hN2 hp, ?_⟩
      have hno : ∀ x ∈ akeys p.2, x ≠ sid := by
        intro x hx hxe
        obtain ⟨w, hw⟩ := pair_of_mem_akeys hx
        have h1 := hMS p hp (x, w) hw
        rw [hxe, hsr] at h1
        cases h1
      rw [filter_ne_of_not_mem hno]
  | some r0 =>
    cases hmem : alook r0 st.rooms with
    | none =>
      exfalso
      have h1 : regMemB st r0 sid = true :=
        (regMemB_iff_sockRoom hinv r0 sid).mpr hsr
      unfold regMemB regMembers at h1
      rw [hmem] at h1
      simp [alook] at h1
    | some mem =>
      have hndmem : (akeys mem).Nodup := hND (r0, mem) (alook_mem hmem)
      have hp2ne : ∀ r', r' ≠ r0 → sockRoom st sid ≠ some r' := by
        intro r' hne hc
        rw [hsr] at hc
        exact hne (Option.some.inj hc).symm
      by_cases hdel : adel sid mem = []
      · rw [discState_eq_del hsr hmem hdel]
        rcases adel_eq_nil hdel with hnil | ⟨v, hv⟩
        · exact absurd hnil (hNE (r0, mem) (alook_mem hmem))
        refine srvInv_disc_generic hinv sid (adel r0 st.rooms)
          (nodup_akeys_adel r0 hN2) ?_ ?_ ?_ ?_ ?_ ?_
        · intro p hp
          exact hND p (mem_adel_sub hp)
        · intro p hp
          exact hNE p (mem_adel_sub hp)
        · intro p hp q hq
          obtain ⟨hp1, hpne⟩ := mem_adel_nodup hN2 hp
          refine ⟨hMS p hp1 q hq, ?_⟩
          intro he
          have h1 := hMS p hp1 q hq
          rw [he, hsr] at h1
          exact hpne (Option.some.inj h1).symm
        · intro r x hx
          by_cases hr : r = r0
          · subst hr
            rw [alook_adel_self r hN2]
            have h1 : regMemB st r x = false := by
              unfold regMemB regMembers
              rw [hmem, hv]
              simp [alook, Ne.symm hx]
            rw [h1]
            rfl
          · rw [alook_adel_ne _ hr]
            rfl
        · intro r
          by_cases hr : r = r0
          · subst hr
            rw [alook_adel_self r hN2]
            have hk : regMembersKeys st r = [sid] := by
              unfold regMembersKeys regMembers
              rw [hmem, hv]
              rfl
            rw [hk]
            simp [akeys_nil]
          · rw [alook_adel_ne _ hr, hfself r (hp2ne r hr)]
            rfl
        · intro p hp
          obtain ⟨hp1, hpne⟩ := mem_adel_nodup hN2 hp
          refine ⟨p.2, mem_alook hN2 hp1, ?_⟩
          have hno : ∀ x ∈ akeys p.2, x ≠ sid := by
            intro x hx hxe
            obtain ⟨w, hw⟩ := pair_of_mem_akeys hx
            have h1 := hMS p hp1 (x, w) hw
            rw [hxe, hsr] at h1
            exact hpne (Option.some.inj h1).symm
          rw [filter_ne_of_not_mem hno]
      · rw [discState_eq_upd hsr hmem hdel]
        have hmemB : ∀ y, regMemB st r0 y = (alook y mem).isSome := by
          intro y
          unfold regMemB regMembers
          rw [hmem]
          rfl
        have hmemK : regMembersKeys st r0 = akeys mem := by
          unfold regMembersKeys regMembers
          rw [hmem]
          rfl
        refine srvInv_disc_generic hinv sid
          (aupd r0 (fun _ => adel sid mem) st.rooms)
          (by rw [akeys_aupd]; exact hN2) ?_ ?_ ?_ ?_ ?_ ?_
        · intro p hp
          rcases mem_aupd_nodup hN2 hp with ⟨hp1, _⟩ | ⟨v, hv, hpeq⟩
          · exact hND p hp1
          · rw [hpeq]
            exact nodup_akeys_adel sid hndmem
        · intro p hp
          rcases mem_aupd_nodup hN2 hp with ⟨hp1, _⟩ | ⟨v, hv, hpeq⟩
          · exact hNE p hp1
          · rw [hpeq]
            exact hdel
        · intro p hp q hq
          rcases mem_aupd_nodup hN2 hp with ⟨hp1, hpne⟩ | ⟨v, hv, hpeq⟩
          · refine ⟨hMS p hp1 q hq, ?_⟩
            intro he
            have h1 := hMS p hp1 q hq
            rw [he, hsr] at h1
            exact hpne (Option.some.inj h1).symm
          · rw [hpeq] at hq
            have hq' : q ∈ adel sid mem := hq
            obtain ⟨hq1, hqne⟩ := mem_adel_nodup hndmem hq'
            rw [hpeq]
            exact ⟨hMS (r0, mem) (alook_mem hmem) q hq1, hqne⟩
        · intro r x hx
          by_cases hr : r = r0
          · subst hr
            rw [alook_aupd_self, hmem]
            simp only [Option.map_some', Option.getD_some]
            rw [alook_adel_ne _ hx, hmemB x]
          · rw [alook_aupd_ne _ _ hr]
            rfl
        · intro r
          by_cases hr : r = r0
          · subst hr
            rw [alook_aupd_self, hmem]
            simp only [Option.map_some', Option.getD_some]
            rw [akeys_adel_of_nodup sid hndmem, hmemK]
          · rw [alook_aupd_ne _ _ hr, hfself r (hp2ne r hr)]
            rfl
        · intro p hp
          rcases mem_aupd_nodup hN2 hp with ⟨hp1, hpne⟩ | ⟨v, hv, hpeq⟩
          · refine ⟨p.2, mem_alook hN2 hp1, ?_⟩
            have hno : ∀ x ∈ akeys p.2, x ≠ sid := by
              intro x hx hxe
              obtain ⟨w, hw⟩ := pair_of_mem_akeys hx
              have h1 := hMS p hp1 (x, w) hw
              rw [hxe, hsr] at h1
              exact hpne (Option.some.inj h1).symm
            rw [filter_ne_of_not_mem hno]
          · rw [hpeq]
            exact ⟨mem, hmem, akeys_adel_of_nodup sid hndmem⟩

/-! ## Reachability of the invariant -/

theorem srvInv_start : SrvInv ServerState.start := by decide

theorem srvInv_step {st : ServerState} (hinv : SrvInv st) {e : Event}
    (hv : validStrict st e = true) : SrvInv (step st e).1 := by
  cases e with
  | connect s =>
    have h1 : livesB st s = false := by
      cases hl : livesB st s with
      | false => rfl
      | true => simp [validStrict, validBasic, hl] at hv
    exact srvInv_connect hinv s h1
  | joinRoom s r u n =>
    have hlv : livesB st s = true := by
      cases hl : livesB st s with
      | true => rfl
      | false => simp [validStrict, validBasic, hl] at hv
    have hrm : sockRoom st s = none := by
      cases hsr : sockRoom st s with
      | none => rfl
      | some r0 => simp [validStrict, validBasic, hsr] at hv
    exact srvInv_join hinv s r u n hlv (Or.inl hrm)
  | offer s t pl => exact hinv
  | answer s t pl => exact hinv
  | iceCandidate s t pl => exact hinv
  | positionUpdate s p => exact srvInv_pos hinv s p
  | toggleMute s b => exact srvInv_mute hinv s b
  | disconnect s => exact srvInv_disc hinv s

theorem srvInv_runS {evs : List Event} :
    ∀ {st : ServerState}, SrvInv st →
      ValidSeqFrom validStrict st evs → SrvInv (runS st evs) := by
  induction evs with
  | nil => intro st hinv _; exact hinv
  | cons e t ih =>
    intro st hinv hv
    obtain ⟨h1, h2⟩ := hv
    exact ih (srvInv_step hinv h1) h2

/-! ## Claim theorems: registry invariants -/

/-- C4 (corrected): in every state reached from the start by a valid event
sequence in which no connection sends `join-room` while already in a room
(`validStrict`), each connection belongs to at most one room, and a
connection's recorded `socket.roomId` is consistent with registry
membership: it is a member of room `r` iff its recorded room id is `r`. -/
theorem registry_consistency (evs : List Event)
    (hv : ValidSeqFrom validStrict ServerState.start evs) :
    (∀ s r1 r2, regMemB (runS ServerState.start evs) r1 s = true →
        regMemB (runS ServerState.start evs) r2 s = true → r1 = r2) ∧
    (∀ s r, regMemB (runS ServerState.start evs) r s = true ↔
        sockRoom (runS ServerState.start evs) s = some r) := by
  have hinv := srvInv_runS srvInv_start hv
  constructor
  · intro s r1 r2 h1 h2
    have e1 := (regMemB_iff_sockRoom hinv r1 s).mp h1
    have e2 := (regMemB_iff_sockRoom hinv r2 s).mp h2
    rw [e1] at e2
    exact Option.some.inj e2
  · intro s r
    exact regMemB_iff_sockRoom hinv r s

/-- C4 witness: after two strictly valid joins into room 5, socket 0 is a
member of room 5. -/
theorem registry_consistency_witness :
    regMemB (runS ServerState.start evsTwoJoin) 5 0 = true :=
  ((registry_consistency evsTwoJoin (by decide)).2 0 5).mpr (by decide)

/-- C4 counterexample: the handlers accept a second `join-room` from a
connection already in a room; after `connect 0; join 0 room 1;
join 0 room 2` — a sequence of events the server accepts — connection 0
is simultaneously a member of rooms 1 and 2, and its recorded room id
(2) dangles relative to its membership in room 1. -/
theorem registry_double_join_breaks :
    ValidSeqFrom validBasic ServerState.start evsDoubleJoin ∧
    regMemB (runS ServerState.start evsDoubleJoin) 1 0 = true ∧
    regMemB (runS ServerState.start evsDoubleJoin) 2 0 = true ∧
    (1 : Nat) ≠ 2 ∧
    sockRoom (runS ServerState.start evsDoubleJoin) 0 = some 2 := by decide

theorem c3_aux (R : Nat) :
    ∀ (evs : List Event) (st : ServerState) (acc : List Nat),
      SrvInv st →
      (∀ p ∈ st.rooms, p.1 = R) →
      (∀ p ∈ st.sockets, p.2.roomId = none ∨ p.2.roomId = some R) →
      (∀ s, regMemB st R s = true ↔ s ∈ acc) →
      ValidSeqFrom validBasic st evs →
      (∀ e ∈ evs, onRoomB R e = true) →
      ∀ s, regMemB (runS st evs) R s = true ↔
        s ∈ evs.foldl (specJoinStep R) acc := by
  intro evs
  induction evs with
  | nil =>
    intro st acc _ _ _ hacc _ _
    exact hacc
  | cons e t ih =>
    intro st acc hinv honlyR honlyS hacc hvalid honR
    obtain ⟨hv1, hv2⟩ := hvalid
    have honRe : onRoomB R e = true := honR e (List.mem_cons_self e t)
    have honRt : ∀ e' ∈ t, onRoomB R e' = true :=
      fun e' he' => honR e' (List.mem_cons_of_mem e he')
    cases e with
    | connect s =>
      have hfresh : livesB st s = false := by
        cases hl : livesB st s with
        | false => rfl
        | true => simp [validBasic, hl] at hv1
      refine ih (connectState st s) acc (srvInv_connect hinv s hfresh)
        honlyR ?_ hacc hv2 honRt
      intro p hp
      have hp' : p ∈ aset s ⟨none, 0, 0⟩ st.sockets := hp
      rcases mem_aset_nodup hinv.1 hp' with hpeq | ⟨h1, _⟩
      · rw [hpeq]
        exact Or.inl rfl
      · exact honlyS p h1
    | joinRoom s r u n =>
      have hrR : r = R := by
        simp [onRoomB] at honRe
        exact honRe
      subst hrR
      have hlv : livesB st s = true := by
        cases hl : livesB st s with
        | true => rfl
        | false => simp [validBasic, hl] at hv1
      obtain ⟨i0, hi0⟩ : ∃ i, alook s st.sockets = some i := by
        unfold livesB at hlv
        cases h : alook s st.sockets with
        | none => rw [h] at hlv; cases hlv
        | some i => exact ⟨i, rfl⟩
      have hroomOr : sockRoom st s = none ∨ sockRoom st s = some r := by
        have h0 := honlyS (s, i0) (alook_mem hi0)
        unfold sockRoom
        rw [hi0]
        exact h0
      have hsockets' : ∀ p ∈ (joinState st s r u n).sockets,
          p.2.roomId = none ∨ p.2.roomId = some r := by
        intro p hp
        rw [joinState_sockets] at hp
        rcases mem_aupd_nodup hinv.1 hp with ⟨h1, _⟩ | ⟨v, hv, hpeq⟩
        · exact honlyS p h1
        · rw [hpeq]
          exact Or.inr rfl
      have hrooms' : ∀ p ∈ (joinState st s r u n).rooms, p.1 = r := by
        intro p hp
        rw [joinState_rooms] at hp
        rcases mem_aupd_nodup (join_rooms1_nodup hinv.2.1 r) hp with
          ⟨h1, hne⟩ | ⟨v, hv, hpeq⟩
        · exact honlyR p (join_rooms1_mem hinv.2.1 h1 hne)
        · rw [hpeq]
      have hacc' : ∀ x, regMemB (joinState st s r u n) r x = true ↔
          x ∈ (if s ∈ acc then acc else acc ++ [s]) := by
        intro x
        rw [regMemB_join, if_pos rfl]
        by_cases hx : x = s
        · subst hx
          rw [if_pos rfl]
          constructor
          · intro _
            by_cases hs : x ∈ acc
            · rw [if_pos hs]; exact hs
            · rw [if_neg hs]
              exact List.mem_append.mpr (Or.inr (List.mem_singleton.mpr rfl))
          · intro _
            rfl
        · rw [if_neg hx]
          rw [hacc x]
          constructor
          · intro h1
            by_cases hs : s ∈ acc
            · rw [if_pos hs]; exact h1
            · rw [if_neg hs]
              exact List.mem_append.mpr (Or.inl h1)
          · intro h1
            by_cases hs : s ∈ acc
            · rw [if_pos hs] at h1; exact h1
            · rw [if_neg hs] at h1
              rcases List.mem_append.mp h1 with h2 | h2
              · exact h2
              · exact absurd (List.mem_singleton.mp h2) hx
      have hstep : runS st (Event.joinRoom s r u n :: t)
          = runS (joinState st s r u n) t := rfl
      have hfold : (Event.joinRoom s r u n :: t).foldl (specJoinStep r) acc
          = t.foldl (specJoinStep r) (if s ∈ acc then acc else acc ++ [s]) := by
        simp [specJoinStep]
      rw [hstep, hfold]
      exact ih (joinState st s r u n) (if s ∈ acc then acc else acc ++ [s])
        (srvInv_join hinv s r u n hlv hroomOr) hrooms' hsockets' hacc' hv2 honRt
    | disconnect s =>
      have hrooms' : ∀ p ∈ (discState st s).rooms, p.1 = R := by
        cases hsr : sockRoom st s with
        | none =>
          rw [discState_eq_none hsr]
          exact honlyR
        | some r0 =>
          cases hmem : alook r0 st.rooms with
          | none =>
            rw [discState_eq_badroom hsr hmem]
            exact honlyR
          | some mem =>
            by_cases hdel : adel s mem = []
            · rw [discState_eq_del hsr hmem hdel]
              intro p hp
              exact honlyR p (mem_adel_sub hp)
            · rw [discState_eq_upd hsr hmem hdel]
              intro p hp
              rcases mem_aupd_nodup hinv.2.1 hp with ⟨h1, _⟩ | ⟨v, hv, hpeq⟩
              · exact honlyR p h1
              · rw [hpeq]
                exact honlyR (r0, mem) (alook_mem hmem)
      have hsockets' : ∀ p ∈ (discState st s).sockets,
          p.2.roomId = none ∨ p.2.roomId = some R := by
        intro p hp
        have hsock : (discState st s).sockets = adel s st.sockets := by
          cases hsr : sockRoom st s with
          | none => rw [discState_eq_none hsr]
          | some r0 =>
            cases hmem : alook r0 st.rooms with
            | none => rw [discState_eq_badroom hsr hmem]
            | some mem =>
              by_cases hdel : adel s mem = []
              · rw [discState_eq_del hsr hmem hdel]
              · rw [discState_eq_upd hsr hmem hdel]
        rw [hsock] at hp
        exact honlyS p (mem_adel_sub hp)
      have hacc' : ∀ x, regMemB (discState st s) R x = true ↔
          x ∈ acc.filter (fun y => y != s) := by
        intro x
        rw [regMemB_disc hinv]
        rw [List.mem_filter]
        constructor
        · intro h1
          simp only [Bool.and_eq_true] at h1
          obtain ⟨h2, h3⟩ := h1
          refine ⟨(hacc x).mp h2, ?_⟩
          rw [bne_iff_ne]
          intro he
          rw [he] at h3
          simp at h3
        · intro hpair
          obtain ⟨h2, h3⟩ := hpair
          simp only [Bool.and_eq_true]
          refine ⟨(hacc x).mpr h2, ?_⟩
          rw [bne_iff_ne] at h3
          simp [h3]
      have hstep : runS st (Event.disconnect s :: t)
          = runS (discState st s) t := rfl
      have hfold : (Event.disconnect s :: t).foldl (specJoinStep R) acc
          = t.foldl (specJoinStep R) (acc.filter (fun y => y != s)) := by
        simp [specJoinStep]
      rw [hstep, hfold]
      exact ih (discState st s) (acc.filter (fun y => y != s))
        (srvInv_disc hinv s) hrooms' hsockets' hacc' hv2 honRt
    | offer s tg pl => simp [onRoomB] at honRe
    | answer s tg pl => simp [onRoomB] at honRe
    | iceCandidate s tg pl => simp [onRoomB] at honRe
    | positionUpdate s p => simp [onRoomB] at honRe
    | toggleMute s b => simp [onRoomB] at honRe

/-- C3 (confirmed): for every sequence of connect, `join-room` (all
targeting room `R`) and `disconnect` events accepted by the transport,
the registry's participant set for `R` is exactly the set of connections
that have joined `R` and have not disconnected since. -/
theorem room_membership_exact (R : Nat) (evs : List Event)
    (hv : ValidSeqFrom validBasic ServerState.start evs)
    (hon : ∀ e ∈ evs, onRoomB R e = true) :
    ∀ s, regMemB (runS ServerState.start evs) R s = true ↔
      s ∈ specJoined R evs := by
  refine c3_aux R evs ServerState.start [] srvInv_start ?_ ?_ ?_ hv hon
  · intro p hp
    simp [ServerState.start] at hp
  · intro p hp
    simp [ServerState.start] at hp
  · intro s
    constructor
    · intro h
      simp [regMemB, regMembers, ServerState.start, alook] at h
    · intro h
      simp at h

/-- C3 witness: after `connect 0; join 0→5; connect 1; join 1→5;
disconnect 0`, connection 1 is in room 5 (and, per the reference set,
exactly the not-yet-disconnected joiners are). -/
theorem room_membership_exact_witness :
    regMemB (runS ServerState.start evsJoinLeave) 5 1 = true :=
  (room_membership_exact 5 evsJoinLeave (by decide) (by decide) 1).mpr
    (by decide)

/-! ## Claim theorems: room lifecycle -/

/-- C6 (confirmed): a join targeting a room id with no current
participants creates that room (holding exactly the joiner); the
disconnect of a room's sole member deletes the room from the registry;
and a disconnect by a connection that is in no room leaves the registry
unchanged. -/
theorem room_lifecycle :
    (∀ (st : ServerState) (sid r u n : Nat), alook r st.rooms = none →
        alook r (step st (Event.joinRoom sid r u n)).1.rooms
          = some [(sid, ⟨u, n, origin, false⟩)]) ∧
    (∀ (st : ServerState) (sid r : Nat) (d : UserData), SrvInv st →
        alook r st.rooms = some [(sid, d)] →
        alook r (step st (Event.disconnect sid)).1.rooms = none) ∧
    (∀ (st : ServerState) (sid : Nat), SrvInv st →
        (∀ r, regMemB st r sid = false) →
        (step st (Event.disconnect sid)).1.rooms = st.rooms) := by
  refine ⟨?_, ?_, ?_⟩
  · intro st sid r u n hno
    show alook r (joinState st sid r u n).rooms
        = some [(sid, ⟨u, n, origin, false⟩)]
    rw [joinState_rooms, alook_aupd_self,
        if_neg (by rw [hno]; simp), alook_aset_self]
    rfl
  · intro st sid r d hinv hsole
    have hsr : sockRoom st sid = some r := by
      apply (regMemB_iff_sockRoom hinv r sid).mp
      unfold regMemB regMembers
      rw [hsole]
      simp [alook]
    have hdel : adel sid [(sid, d)] = [] := by simp [adel]
    show alook r (discState st sid).rooms = none
    rw [discState_eq_del hsr hsole hdel]
    exact alook_adel_self r hinv.2.1
  · intro st sid hinv hnomem
    have hsr : sockRoom st sid = none := by
      cases hc : sockRoom st sid with
      | none => rfl
      | some r0 =>
        have h1 := (regMemB_iff_sockRoom hinv r0 sid).mpr hc
        rw [hnomem r0] at h1
        cases h1
    show (discState st sid).rooms = st.rooms
    rw [discState_eq_none hsr]

/-- C6 witness: joining absent room 9 creates it with the joiner as sole
member; disconnecting the sole member of room 5 removes room 5; a
disconnect by the roomless connection of `stOne` leaves the room table
unchanged. -/
theorem room_lifecycle_witness :
    alook 9 (step stTwo (Event.joinRoom 0 9 10 20)).1.rooms
        = some [(0, ⟨10, 20, origin, false⟩)] ∧
    alook 5 (step stOneRoom (Event.disconnect 0)).1.rooms = none ∧
    (step stOne (Event.disconnect 0)).1.rooms = stOne.rooms :=
  ⟨room_lifecycle.1 stTwo 0 9 10 20 (by decide),
   room_lifecycle.2.1 stOneRoom 0 5 ⟨1, 1, origin, false⟩ (by decide) (by decide),
   room_lifecycle.2.2 stOne 0 (by decide) (fun _ => rfl)⟩

/-! ## Claim theorems: presence and state sync -/

/-- C7 (confirmed): under the server invariant, when a member of room `r`
sends `position-update` (resp. `toggle-mute`), the registry records the
new value and a `user-position-update` (resp. `user-mute-update`)
message carrying the sender's connection id and the new value is emitted
to exactly the other current members of that room, in member order, and
not to the sender; when the sender is in no room, both operations leave
the whole state unchanged and emit nothing. -/
theorem presence_update_broadcast (st : ServerState) (sid r : Nat) (p : V3)
    (b : Bool) (hinv : SrvInv st) :
    (regMemB st r sid = true →
      (alook sid (regMembers (step st (Event.positionUpdate sid p)).1 r)).map
          UserData.position = some p ∧
      (step st (Event.positionUpdate sid p)).2
        = ((regMembersKeys st r).filter (fun x => x != sid)).map
            (fun x => (x, Msg.userPositionUpdate sid p)) ∧
      (alook sid (regMembers (step st (Event.toggleMute sid b)).1 r)).map
          UserData.muted = some b ∧
      (step st (Event.toggleMute sid b)).2
        = ((regMembersKeys st r).filter (fun x => x != sid)).map
            (fun x => (x, Msg.userMuteUpdate sid b))) ∧
    ((∀ r', regMemB st r' sid = false) →
      step st (Event.positionUpdate sid p) = (st, []) ∧
      step st (Event.toggleMute sid b) = (st, [])) := by
  constructor
  · intro hmem
    have hsr : sockRoom st sid = some r :=
      (regMemB_iff_sockRoom hinv r sid).mp hmem
    obtain ⟨mem, hmemr⟩ : ∃ mem, alook r st.rooms = some mem := by
      unfold regMemB regMembers at hmem
      cases hx : alook r st.rooms with
      | none =>
        rw [hx] at hmem
        simp [alook] at hmem
      | some m => exact ⟨m, rfl⟩
    have hin : (alook sid mem).isSome = true := by
      unfold regMemB regMembers at hmem
      rw [hmemr] at hmem
      exact hmem
    obtain ⟨u0, hu0⟩ : ∃ u0, alook sid mem = some u0 := by
      cases hx : alook sid mem with
      | none => rw [hx] at hin; cases hin
      | some w => exact ⟨w, rfl⟩
    have hkeys : regMembersKeys st r = akeys mem := by
      unfold regMembersKeys regMembers
      rw [hmemr]
      rfl
    refine ⟨?_, ?_, ?_, ?_⟩
    · show (alook sid (regMembers (posState st sid p) r)).map
          UserData.position = some p
      rw [posState_eq_mem p hsr hmemr hin]
      show (alook sid ((alook r (aupd r
          (fun m => aupd sid (fun w => { w with position := p }) m)
          st.rooms)).getD [])).map UserData.position = some p
      rw [alook_aupd_self, hmemr]
      simp only [Option.map_some', Option.getD_some]
      rw [alook_aupd_self, hu0]
      simp
    · show posOut st sid p = _
      rw [posOut_eq_mem p hsr hmemr hin, sio_room_eq hinv hmemr, hkeys]
      rfl
    · show (alook sid (regMembers (muteState st sid b) r)).map
          UserData.muted = some b
      rw [muteState_eq_mem b hsr hmemr hin]
      show (alook sid ((alook r (aupd r
          (fun m => aupd sid (fun w => { w with muted := b }) m)
          st.rooms)).getD [])).map UserData.muted = some b
      rw [alook_aupd_self, hmemr]
      simp only [Option.map_some', Option.getD_some]
      rw [alook_aupd_self, hu0]
      simp
    · show muteOut st sid b = _
      rw [muteOut_eq_mem b hsr hmemr hin, sio_room_eq hinv hmemr, hkeys]
      rfl
  · intro hnone
    have hsr : sockRoom st sid = none := by
      cases hc : sockRoom st sid with
      | none => rfl
      | some r0 =>
        have h1 := (regMemB_iff_sockRoom hinv r0 sid).mpr hc
        rw [hnone r0] at h1
        cases h1
    constructor
    · show (posState st sid p, posOut st sid p) = (st, [])
      rw [posState_eq_noroom p hsr, posOut_eq_noroom p hsr]
    · show (muteState st sid b, muteOut st sid b) = (st, [])
      rw [muteState_eq_noroom b hsr, muteOut_eq_noroom b hsr]

/-- C7 witness: in the two-member room 5, a position update from socket 0
is delivered exactly to socket 1 with the new position; in the roomless
state `stOne` the same update is a silent no-op. -/
theorem presence_update_broadcast_witness :
    (step stTwo (Event.positionUpdate 0 ⟨3, 0, 4⟩)).2
      = [(1, Msg.userPositionUpdate 0 ⟨3, 0, 4⟩)] ∧
    step stOne (Event.positionUpdate 0 ⟨3, 0, 4⟩) = (stOne, []) := by
  constructor
  · have h := (presence_update_broadcast stTwo 0 5 ⟨3, 0, 4⟩ true
      (by decide)).1 (by decide)
    rw [h.2.1]
    decide
  · exact ((presence_update_broadcast stOne 0 5 ⟨3, 0, 4⟩ true
      (by decide)).2 (fun _ => rfl)).1

/-! ## Claim theorems: signaling relay -/

theorem step_signal {st : ServerState} (hinv : SrvInv st) {e : Event}
    (hs : isSignal e = true) :
    step st e = (st, (sigDeliver st e).toList) := by
  cases e with
  | offer s t pl =>
    show (st, emitExcept (sioMembers st (SioKey.sock t)) s (Msg.offerMsg pl s))
        = (st, (sigDeliver st (Event.offer s t pl)).toList)
    cases hl : livesB st t with
    | true =>
      rw [sio_sock_live hinv hl]
      by_cases hts : t = s
      · subst hts
        unfold emitExcept sigDeliver
        simp [hl]
      · unfold emitExcept sigDeliver
        simp [hl, hts, bne_iff_ne]
    | false =>
      rw [sio_sock_dead hinv hl]
      unfold emitExcept sigDeliver
      simp [hl]
  | answer s t pl =>
    show (st, emitExcept (sioMembers st (SioKey.sock t)) s (Msg.answerMsg pl s))
        = (st, (sigDeliver st (Event.answer s t pl)).toList)
    cases hl : livesB st t with
    | true =>
      rw [sio_sock_live hinv hl]
      by_cases hts : t = s
      · subst hts
        unfold emitExcept sigDeliver
        simp [hl]
      · unfold emitExcept sigDeliver
        simp [hl, hts, bne_iff_ne]
    | false =>
      rw [sio_sock_dead hinv hl]
      unfold emitExcept sigDeliver
      simp [hl]
  | iceCandidate s t pl =>
    show (st, emitExcept (sioMembers st (SioKey.sock t)) s
          (Msg.iceCandidateMsg pl s))
        = (st, (sigDeliver st (Event.iceCandidate s t pl)).toList)
    cases hl : livesB st t with
    | true =>
      rw [sio_sock_live hinv hl]
      by_cases hts : t = s
      · subst hts
        unfold emitExcept sigDeliver
        simp [hl]
      · unfold emitExcept sigDeliver
        simp [hl, hts, bne_iff_ne]
    | false =>
      rw [sio_sock_dead hinv hl]
      unfold emitExcept sigDeliver
      simp [hl]
  | connect s => simp [isSignal] at hs
  | joinRoom s r u n => simp [isSignal] at hs
  | positionUpdate s p => simp [isSignal] at hs
  | toggleMute s b => simp [isSignal] at hs
  | disconnect s => simp [isSignal] at hs

/-- C8 (corrected): running any batch of signaling forwards leaves the
server state unchanged, and the emitted messages are exactly, in order,
one delivery per forward whose target is a live connection other than
the sender — carrying the original payload and the sender's identity —
while forwards to absent targets (and to the sender itself) are silently
dropped: nothing is queued and no error is sent back.  In particular
messages from one sender to one target are delivered in the order sent. -/
theorem signaling_forward (st : ServerState) (evs : List Event)
    (hinv : SrvInv st) (hsig : ∀ e ∈ evs, isSignal e = true) :
    runOut st evs = (st, evs.filterMap (sigDeliver st)) := by
  induction evs with
  | nil => rfl
  | cons e t ih =>
    have he : isSignal e = true := hsig e (List.mem_cons_self e t)
    have ht : ∀ e' ∈ t, isSignal e' = true :=
      fun e' h => hsig e' (List.mem_cons_of_mem e h)
    have hstep := step_signal hinv he
    show (let pq := step st e
          let q := runOut pq.1 t
          (q.1, pq.2 ++ q.2)) = (st, (e :: t).filterMap (sigDeliver st))
    rw [hstep]
    simp only
    rw [ih ht]
    simp only
    cases hd : sigDeliver st e with
    | none => simp [List.filterMap_cons, hd]
    | some msg => simp [List.filterMap_cons, hd]

/-- C8 witness: from the two-socket state, an offer from 0 to 1 followed
by an ICE candidate from 1 to 0 are each delivered exactly once, in
order, with the original payloads and sender identities. -/
theorem signaling_forward_witness :
    runOut stTwo [Event.offer 0 1 99, Event.iceCandidate 1 0 7]
      = (stTwo, [(1, Msg.offerMsg 99 0), (0, Msg.iceCandidateMsg 7 1)]) := by
  have h := signaling_forward stTwo
    [Event.offer 0 1 99, Event.iceCandidate 1 0 7] (by decide) (by decide)
  rw [h]
  decide

/-- C8 counterexample: the claim as stated promises delivery whenever the
target names a live connection, but a forward whose target is the
(live) sender itself is delivered to no one, because `socket.to(room)`
excludes the sending socket. -/
theorem signaling_live_target_not_delivered :
    livesB stOne 0 = true ∧ step stOne (Event.offer 0 0 99) = (stOne, []) := by
  decide

/-- C9 (confirmed): a signaling forward (offer, answer or candidate)
whose target connection id equals the sender's own id is delivered to no
one and leaves the state unchanged, even though the target is live: the
adapter room named by the sender's id contains only the sender, which
`socket.to(...).emit` excludes. -/
theorem self_signal_dropped (st : ServerState) (s payload : Nat)
    (hinv : SrvInv st) (hlive : livesB st s = true) :
    step st (Event.offer s s payload) = (st, []) ∧
    step st (Event.answer s s payload) = (st, []) ∧
    step st (Event.iceCandidate s s payload) = (st, []) := by
  have h1 : sioMembers st (SioKey.sock s) = [s] := sio_sock_live hinv hlive
  refine ⟨?_, ?_, ?_⟩
  · show (st, emitExcept (sioMembers st (SioKey.sock s)) s
        (Msg.offerMsg payload s)) = (st, [])
    rw [h1]
    unfold emitExcept
    simp
  · show (st, emitExcept (sioMembers st (SioKey.sock s)) s
        (Msg.answerMsg payload s)) = (st, [])
    rw [h1]
    unfold emitExcept
    simp
  · show (st, emitExcept (sioMembers st (SioKey.sock s)) s
        (Msg.iceCandidateMsg payload s)) = (st, [])
    rw [h1]
    unfold emitExcept
    simp

/-- C9 witness: the live connection 1 of the two-socket state sends an
answer targeted at itself; nobody receives it. -/
theorem self_signal_dropped_witness :
    step stTwo (Event.answer 1 1 42) = (stTwo, []) :=
  (self_signal_dropped stTwo 1 42 (by decide) (by decide)).2.1
